import Mathlib

/-!
Verification of the neurolight skeleton-processing core
(`neurolight/gunpowder/swc_source.py` and
`neurolight/gunpowder/rasterize_skeleton.py`) against its
natural-language specification.

The Python code is shallowly embedded: locations (numpy float arrays)
become `V3 ℚ`, integer ids become `ℤ`, python dicts become association
lists with python-dict insert/overwrite semantics, and fallible code
returns `Except`.  Recursion that Python implements with a `while` loop
plus recursive calls is embedded with an explicit fuel argument; the
top-level callers pass enough fuel that the fuel-exhaustion error is
unreachable (this is proved where needed).
-/

set_option maxHeartbeats 1000000
set_option linter.unreachableTactic false
set_option linter.unusedTactic false

/- Core rational arithmetic is `@[irreducible]` by default, which blocks
kernel evaluation of the embedded functions on concrete inputs; restore
the default reducibility so `decide`/`rfl` can compute with `ℚ`. -/
set_option allowUnsafeReducibility true in
attribute [semireducible] Rat.sub Rat.mul Rat.inv Rat.add

deriving instance DecidableEq for Except

/-- Three-component vector, the shape of a point location / coordinate
(`ndims = 3` in `SwcSource`). -/
structure V3 (α : Type) where
  x : α
  y : α
  z : α
deriving DecidableEq, Repr

instance : Inhabited (V3 ℤ) := ⟨⟨0, 0, 0⟩⟩

instance : Inhabited (V3 ℚ) := ⟨⟨0, 0, 0⟩⟩

/-- Axis access: component `d` of a vector. -/
def V3.get {α : Type} (v : V3 α) : Fin 3 → α
  | 0 => v.x
  | 1 => v.y
  | 2 => v.z

/-- Componentwise map (numpy elementwise unary op). -/
def V3.map {α β : Type} (f : α → β) (v : V3 α) : V3 β :=
  ⟨f v.x, f v.y, f v.z⟩

/-- Componentwise zip (numpy elementwise binary op). -/
def V3.zipWith {α β γ : Type} (f : α → β → γ) (u : V3 α) (v : V3 β) : V3 γ :=
  ⟨f u.x v.x, f u.y v.y, f u.z v.z⟩

/-- Integer coordinate vector viewed as a rational location. -/
def V3.ofInt (v : V3 ℤ) : V3 ℚ :=
  v.map (fun (i : ℤ) => (i : ℚ))

/-- One row of `SwcSource.data`: layout `[x, y, z, point_id, parent_id, label_id]`
(see `SwcSource._read_points`). -/
structure Record where
  x : ℚ
  y : ℚ
  z : ℚ
  point_id : ℤ
  parent_id : ℤ
  label_id : ℤ
deriving DecidableEq, Repr

/-- The location columns of a record. -/
def Record.loc (r : Record) : V3 ℚ := ⟨r.x, r.y, r.z⟩

/-- Association-list lookup, the embedding of python `dict.get` /
`dict[...)` access.  Later inserts are consed on the front, so the most
recent binding wins, exactly like python dict assignment. -/
def alookup {α : Type} : ℤ → List (ℤ × α) → Option α
  | _, [] => none
  | k, (a, v) :: t => if a = k then some v else alookup k t

/-- Python dict insert: replace the binding in place if the key exists,
else append at the end (python dicts preserve first-insertion order). -/
def dict_insert {α : Type} : List (ℤ × α) → ℤ → α → List (ℤ × α)
  | [], k, v => [(k, v)]
  | (a, w) :: t, k, v => if a = k then (k, v) :: t else (a, w) :: dict_insert t k v

/-- Failure modes of the swc source, one constructor per python exception
site: `cycleDetected` is the `RuntimeError("Loop detected in skeleton")`
raise in `_label_skeleton` (note: the message carries no point id),
`keyError` is the `KeyError` from `self.point_to_label[point_id]` in the
final loop of `_label_skeletons` and from `self.child_to_parent[point_id]`
in `provide`, `notFound` is the `IndexError` from `self.data[...][0]` in
`_get_point`, `degenerateSegment` is the `AssertionError` in
`_resample_relative`, and `noFuel` is the embedding artifact for exhausted
fuel (unreachable for the fuel the top level passes). -/
inductive SwcErr
  | cycleDetected
  | keyError
  | notFound
  | degenerateSegment
  | noFuel
deriving DecidableEq, Repr

/-- The derived indices `child_to_parent`, `parent_to_children`, `sources`
of `SwcSource`. -/
structure Maps where
  c2p : List (ℤ × ℤ)
  p2c : List (ℤ × List ℤ)
  sources : List ℤ
deriving Repr

/-- `self.parent_to_children[parent_id].append(point_id)` with creation of
a singleton list when the key is absent. -/
def addChild (m : List (ℤ × List ℤ)) (pa c : ℤ) : List (ℤ × List ℤ) :=
  match alookup pa m with
  | some l => (pa, l ++ [c]) :: m
  | none => (pa, [c]) :: m

/-- One iteration of the classification loop at the top of
`_label_skeletons`: a record with `point_id == parent_id` is appended to
`sources`, any other record populates `child_to_parent` and
`parent_to_children`. -/
def build_step (ms : Maps) (r : Record) : Maps :=
  if r.point_id = r.parent_id then
    { ms with sources := ms.sources ++ [r.point_id] }
  else
    { ms with
      c2p := (r.point_id, r.parent_id) :: ms.c2p
      p2c := addChild ms.p2c r.parent_id r.point_id }

/-- The classification loop of `_label_skeletons`, scanning the records
in table order starting from empty maps. -/
def build_maps (R : List Record) : Maps :=
  R.foldl build_step ⟨[], [], []⟩

/-- `SwcSource._label_skeleton`: label the subtree rooted at `p` with
`l`, raising the loop error when a point about to be labeled is already
in `point_to_label`.  The python `while` loop (single-child continuation)
and the recursive branch case are both embedded as recursion on fuel. -/
def label_skeleton (p2c : List (ℤ × List ℤ)) : ℕ → ℤ → ℤ → List (ℤ × ℤ) →
    Except SwcErr (List (ℤ × ℤ))
  | 0, _, _, _ => .error .noFuel
  | fuel + 1, p, l, m =>
    if (alookup p m).isSome then .error .cycleDetected
    else
      let m' := (p, l) :: m
      match alookup p p2c with
      | none => .ok m'
      | some [c] => label_skeleton p2c fuel c l m'
      | some cs => cs.foldlM (fun mm c => label_skeleton p2c fuel c l mm) m'

/-- The relabelling loop of `_label_skeletons`: traverse each source in
order, starting at label 1 and incrementing per source; returns the final
`point_to_label` mapping. -/
def label_map (R : List Record) : Except SwcErr (List (ℤ × ℤ)) :=
  let ms := build_maps R
  (ms.sources.foldlM
      (fun (st : ℤ × List (ℤ × ℤ)) s => do
        let m ← label_skeleton ms.p2c (R.length + 2) s st.1 st.2
        pure (st.1 + 1, m))
      ((1 : ℤ), ([] : List (ℤ × ℤ)))).map Prod.snd

/-- All of `_label_skeletons`: build the maps, traverse, then write
`point[5] = self.point_to_label[point_id]` for every record (a missing
key raises `KeyError`). -/
def label_skeletons (R : List Record) : Except SwcErr (List Record) := do
  let m ← label_map R
  R.mapM (fun r =>
    match alookup r.point_id m with
    | some l => pure { r with label_id := l }
    | none => .error .keyError)

/-- The per-record point filter in `SwcSource.provide`: a conjunction,
built up axis by axis with two `logical_and`s per axis, of
`min_bb[d] <= location[d]` and `location[d] <= max_bb[d]`. -/
def keep_point (r : Record) (min_bb max_bb : V3 ℤ) : Bool :=
  (List.finRange 3).foldl
    (fun acc d =>
      (acc && decide ((min_bb.get d : ℚ) ≤ r.loc.get d)) &&
        decide (r.loc.get d ≤ (max_bb.get d : ℚ)))
    true

/-- A point record as handed out by `provide` (`SwcPoint`). -/
structure SwcPoint where
  location : V3 ℚ
  point_id : ℤ
  parent_id : ℤ
  label_id : ℤ
deriving DecidableEq, Repr

/-- `SwcSource._get_points`: dict comprehension keyed by `point_id` over
the filtered rows. -/
def get_points (rows : List Record) : List (ℤ × SwcPoint) :=
  rows.foldl
    (fun m r => dict_insert m r.point_id ⟨r.loc, r.point_id, r.parent_id, r.label_id⟩)
    []

/-- `SwcSource._get_point`: first row whose `point_id` column matches
(an absent id raises, embedded as `none`). -/
def get_point (R : List Record) (i : ℤ) : Option SwcPoint :=
  (R.find? (fun r => r.point_id == i)).map
    (fun r => ⟨r.loc, r.point_id, r.parent_id, r.label_id⟩)

/-- The per-axis intersection parameters computed in
`_resample_relative`: both `(min_bb - p) / dist` and `(max_bb - p) / dist`
for each axis.  Axes with `dist[d] = 0` produce `nan`/`inf` in numpy and
never pass the `0 <= s <= 1` mask, so they contribute no candidate;
the embedding skips them. -/
def s_candidates (p relative : V3 ℚ) (min_bb max_bb : V3 ℤ) : List ℚ :=
  let dist := V3.zipWith (fun a b => a - b) relative p
  (List.finRange 3).flatMap
    (fun d =>
      if dist.get d = 0 then []
      else
        [((min_bb.get d : ℚ) - p.get d) / dist.get d,
          ((max_bb.get d : ℚ) - p.get d) / dist.get d])

/-- `SwcSource._resample_relative`: among the per-axis intersection
parameters that fall in `[0, 1]` (the mask is `s_bb >= 0 && s_bb <= 1`,
zero included), take the minimum `s` and return
`floor(p.location + s * dist)`.  An empty mask is the python assert. -/
def resample_relative (p relative : V3 ℚ) (min_bb max_bb : V3 ℤ) :
    Except SwcErr (V3 ℤ) :=
  let dist := V3.zipWith (fun a b => a - b) relative p
  let valid := (s_candidates p relative min_bb max_bb).filter
    (fun s => decide (0 ≤ s) && decide (s ≤ 1))
  match valid with
  | [] => .error .degenerateSegment
  | s0 :: rest =>
    let s := rest.foldl min s0
    .ok (V3.map (fun q => ⌊q⌋) (V3.zipWith (fun pd dd => pd + s * dd) p dist))

/-- The query region of a `provide` request: `roi.get_begin()` and shape. -/
structure Roi where
  start : V3 ℤ
  shape : V3 ℤ
deriving DecidableEq, Repr

/-- `roi.get_end()` = begin + shape. -/
def Roi.rend (roi : Roi) : V3 ℤ :=
  V3.zipWith (fun a b => a + b) roi.start roi.shape

/-- The body of `SwcSource.provide` for one points key: filter the data
rows to `[min_bb, max_bb]` with `max_bb = end - (1,1,1)`, then, when some
rows were filtered out, walk the kept points and synthesize a resampled
point for each missing parent (with `parent_id = -1`) and each missing
child (with `parent_id = point_id` of the kept point), finally merge the
synthesized points into the kept dict. -/
def provide_points (R : List Record) (roi : Roi) :
    Except SwcErr (List (ℤ × SwcPoint)) :=
  let min_bb := roi.start
  let max_bb := V3.zipWith (fun a b => a - b) roi.rend ⟨1, 1, 1⟩
  let ms := build_maps R
  let kept := R.filter (fun r => keep_point r min_bb max_bb)
  let points_data := get_points kept
  if points_data.length < R.length then do
    let relatives ← points_data.foldlM
      (fun (rel : List (ℤ × SwcPoint)) pr => do
        let point_id := pr.1
        let point := pr.2
        let rel ←
          if ms.sources.contains point_id then pure rel
          else
            match alookup point_id ms.c2p with
            | none => Except.error SwcErr.keyError
            | some parent_id =>
              if (alookup parent_id points_data).isSome then pure rel
              else
                match get_point R parent_id with
                | none => Except.error SwcErr.notFound
                | some parent => do
                  let loc ← resample_relative point.location parent.location min_bb max_bb
                  pure (dict_insert rel parent_id ⟨V3.ofInt loc, parent_id, -1, point.label_id⟩)
        match alookup point_id ms.p2c with
        | none => pure rel
        | some cs =>
          cs.foldlM
            (fun rel child_id =>
              if (alookup child_id points_data).isSome then pure rel
              else
                match get_point R child_id with
                | none => Except.error SwcErr.notFound
                | some child => do
                  let loc ← resample_relative point.location child.location min_bb max_bb
                  pure (dict_insert rel child_id
                    ⟨V3.ofInt loc, child_id, point_id, point.label_id⟩))
            rel)
      []
    pure (relatives.foldl (fun acc kv => dict_insert acc kv.1 kv.2) points_data)
  else
    pure points_data

/-- Failure mode of `RasterizeSkeleton.process`: the
`assert len(points.data.items()) > 0` at its top. -/
inductive RErr
  | noPoints
deriving DecidableEq, Repr

/-- The caller-specified output dtype (`array_spec.dtype`).  Selection of
numpy dtypes that can be passed; `boolD` is `np.bool` (the class doc says
the node draws a *binary* array), `int32` is the default from `setup`. -/
inductive Dtype
  | boolD
  | int8
  | int32
deriving DecidableEq, Repr

/-- Largest value representable in the dtype. -/
def Dtype.maxVal : Dtype → ℤ
  | .boolD => 1
  | .int8 => 127
  | .int32 => 2147483647

/-- Modelled from numpy semantics: the value actually stored by
`array_data[binarized] = i + 1` for an array of the given dtype — bool
stores `value != 0`, fixed-width integers wrap modulo `2^w`. -/
def Dtype.castVal : Dtype → ℤ → ℤ
  | .boolD, v => if v = 0 then 0 else 1
  | .int8, v => (v + 128) % 256 - 128
  | .int32, v => (v + 2147483648) % 4294967296 - 2147483648

/-- numpy `.astype(int)` on a float: truncation toward zero. -/
def truncQ (q : ℚ) : ℤ :=
  if 0 ≤ q then ⌊q⌋ else ⌈q⌉

/-- numpy `np.rint`: round to nearest integer, ties to even. -/
def rintQ (q : ℚ) : ℤ :=
  let f := ⌊q⌋
  if q - f < 1 / 2 then f
  else if 1 / 2 < q - f then f + 1
  else if f % 2 = 0 then f else f + 1

/-- Voxel conversion of the edge's first endpoint in
`RasterizeSkeleton.process`:
`(cc.nodes[u]["location"] / voxel_size - offset).astype(int)` —
the offset is subtracted before truncating. -/
def p1_convert (location voxel_size : V3 ℚ) (offset : V3 ℤ) : V3 ℤ :=
  V3.map truncQ
    (V3.zipWith (fun a b => a - b)
      (V3.zipWith (fun l v => l / v) location voxel_size)
      (V3.ofInt offset))

/-- Voxel conversion of the edge's second endpoint:
`(cc.nodes[v]["location"] / voxel_size).astype(int) - offset` —
truncation happens first, then the offset is subtracted. -/
def p2_convert (location voxel_size : V3 ℚ) (offset : V3 ℤ) : V3 ℤ :=
  V3.zipWith (fun a b => a - b)
    (V3.map truncQ (V3.zipWith (fun l v => l / v) location voxel_size))
    offset

/-- The conversion the spec describes:
`round((location / voxel_size) - grid_offset)` applied to both
endpoints.  Stated from the spec's words for comparison with
`p1_convert`/`p2_convert`. -/
def spec_round_convert (location voxel_size : V3 ℚ) (offset : V3 ℤ) : V3 ℤ :=
  V3.map (fun q => round q)
    (V3.zipWith (fun a b => a - b)
      (V3.zipWith (fun l v => l / v) location voxel_size)
      (V3.ofInt offset))

/-- `np.amax(np.abs(v))` for an integer vector. -/
def maxAbs (v : V3 ℤ) : ℕ :=
  v.x.natAbs ⊔ (v.y.natAbs ⊔ v.z.natAbs)

/-- Elementwise integer vector subtraction. -/
def vsub (u v : V3 ℤ) : V3 ℤ :=
  V3.zipWith (fun a b => a - b) u v

/-- `RasterizeSkeleton._bresenhamline_nslope`: divide the slope by its
largest absolute component (identity when the slope is zero). -/
def bresenhamline_nslope (slope : V3 ℤ) : V3 ℚ :=
  let scale := maxAbs slope
  if scale = 0 then V3.ofInt slope
  else V3.map (fun (c : ℤ) => (c : ℚ) / (scale : ℚ)) slope

/-- `RasterizeSkeleton._bresenhamline`: with `max_iter = -1` walk
`np.amax(np.abs(end - start))` steps; step `k` (1-based) lands at
`np.rint(start + k * nslope)`. -/
def bresenhamline (start_voxel end_voxel : V3 ℤ) (max_iter : ℤ) : List (V3 ℤ) :=
  let mi : ℕ := if max_iter = -1 then maxAbs (vsub end_voxel start_voxel) else max_iter.toNat
  let nslope := bresenhamline_nslope (vsub end_voxel start_voxel)
  (List.range mi).map
    (fun (k : ℕ) =>
      V3.map rintQ
        (V3.zipWith (fun (s : ℤ) (ns : ℚ) => (s : ℚ) + ((k : ℚ) + 1) * ns)
          start_voxel nslope))

/-- `RasterizeSkeleton._rasterize_line_segment`: mark every voxel of the
digital line from `point` to `parent`, plus `point` itself.  The boolean
mask array is embedded as the list of marked voxels (membership is what
matters). -/
def rasterize_line_segment (point parent : V3 ℤ) (skeletonized : List (V3 ℤ)) :
    List (V3 ℤ) :=
  skeletonized ++ bresenhamline point parent (-1) ++ [point]

/-- Undirected adjacency test over the edge list. -/
def adjacentB (edges : List (ℤ × ℤ)) (a b : ℤ) : Bool :=
  edges.any (fun e => (e.1 == a && e.2 == b) || (e.1 == b && e.2 == a))

/-- One round of growing a component by all nodes adjacent to it. -/
def cc_expand (nodeIds : List ℤ) (edges : List (ℤ × ℤ)) (comp : List ℤ) : List ℤ :=
  comp ++ nodeIds.filter (fun n => !comp.contains n && comp.any (fun c => adjacentB edges c n))

/-- The weakly-connected component containing `n`: grow from `{n}` until
saturation (iterating as many times as there are nodes suffices). -/
def cc_of (nodeIds : List ℤ) (edges : List (ℤ × ℤ)) (n : ℤ) : List ℤ :=
  Nat.iterate (cc_expand nodeIds edges) nodeIds.length [n]

/-- Modelled from networkx semantics:
`nx.weakly_connected_components(graph)` yields the components in order of
first node insertion; `process` enumerates them in that order. -/
def weakly_connected_components (nodeIds : List ℤ) (edges : List (ℤ × ℤ)) :
    List (List ℤ) :=
  Prod.fst
    (nodeIds.foldl
      (fun (st : List (List ℤ) × List ℤ) n =>
        if st.2.contains n then st
        else
          let c := cc_of nodeIds edges n
          (st.1 ++ [c], st.2 ++ c))
      ([], []))

/-- The boolean mask `binarized` built for one component in
`RasterizeSkeleton.process`: start from all-False and rasterize every
edge of the component's subgraph, converting endpoint `u` with
`p1_convert` and endpoint `v` with `p2_convert`. -/
def component_mask (nodes : List (ℤ × V3 ℚ)) (edges : List (ℤ × ℤ))
    (voxel_size : V3 ℚ) (offset : V3 ℤ) (cc : List ℤ) : List (V3 ℤ) :=
  (edges.filter (fun e => cc.contains e.1 && cc.contains e.2)).foldl
    (fun mask e =>
      rasterize_line_segment
        (p1_convert ((alookup e.1 nodes).getD default) voxel_size offset)
        (p2_convert ((alookup e.2 nodes).getD default) voxel_size offset)
        mask)
    []

/-- The voxel grid written by `RasterizeSkeleton.process`, as a function
from voxel coordinate to stored value: zero-initialized, then for each
component `i` (in discovery order) the voxels of its mask are overwritten
with the dtype cast of `i + 1`. -/
def grid_fun (nodes : List (ℤ × V3 ℚ)) (edges : List (ℤ × ℤ))
    (voxel_size : V3 ℚ) (offset : V3 ℤ) (dtype : Dtype) : V3 ℤ → ℤ :=
  ((weakly_connected_components (nodes.map Prod.fst) edges).enum).foldl
    (fun g icc v =>
      if (component_mask nodes edges voxel_size offset icc.2).contains v then
        Dtype.castVal dtype ((icc.1 : ℤ) + 1)
      else g v)
    (fun _ => 0)

/-- `RasterizeSkeleton.process`: assert the point map is nonempty, then
draw each weakly-connected component into the grid.  The working-roi
computation (`snap_to_grid`, crop) determines `offset` and is performed by
gunpowder `Roi` arithmetic; the grid offset is taken as an input here. -/
def process (nodes : List (ℤ × V3 ℚ)) (edges : List (ℤ × ℤ))
    (voxel_size : V3 ℚ) (offset : V3 ℤ) (dtype : Dtype) :
    Except RErr (V3 ℤ → ℤ) :=
  if nodes.isEmpty then .error .noPoints
  else .ok (grid_fun nodes edges voxel_size offset dtype)

/-- The point ids of a record table, in table order. -/
def rids (R : List Record) : List ℤ :=
  R.map (fun r => r.point_id)

/-- `i` is a root point of the table (`point_id == parent_id`). -/
def isRootIn (R : List Record) (i : ℤ) : Prop :=
  ∃ r ∈ R, r.point_id = i ∧ r.parent_id = i

/-- `c` is a (non-root) child of `a` in the table: some record has
`point_id = c`, `parent_id = a` and is not a self-reference. -/
def childRel (R : List Record) (a c : ℤ) : Prop :=
  ∃ r ∈ R, r.point_id = c ∧ r.parent_id = a ∧ r.point_id ≠ r.parent_id

/-- `Desc R a b`: `b` lies in the subtree below `a` (reflexive-transitive
closure of the child relation). -/
def Desc (R : List Record) : ℤ → ℤ → Prop :=
  Relation.ReflTransGen (childRel R)

/-- A parent/child edge, taken undirected. -/
def EdgeRel (R : List Record) (a b : ℤ) : Prop :=
  childRel R a b ∨ childRel R b a

/-- Weak connectivity: reflexive-transitive closure of the undirected
parent/child edges. -/
def Connected (R : List Record) : ℤ → ℤ → Prop :=
  Relation.ReflTransGen (EdgeRel R)

/-- The children of `a`, in table order (the list
`parent_to_children[a]` ends up holding exactly these). -/
def childList (R : List Record) (a : ℤ) : List ℤ :=
  (R.filter (fun r => r.parent_id == a && r.point_id != r.parent_id)).map
    (fun r => r.point_id)

/-- The root point ids in table order (what `sources` ends up holding). -/
def rootList (R : List Record) : List ℤ :=
  (R.filter (fun r => r.point_id == r.parent_id)).map (fun r => r.point_id)

/-- Append new children to an optional existing child list, yielding
`none` only when both sides are empty — the shape in which
`parent_to_children` lookups are described. -/
def optCat (o : Option (List ℤ)) (l : List ℤ) : Option (List ℤ) :=
  match o, l with
  | none, [] => none
  | _, _ => some (o.getD [] ++ l)

/-- Number of table ids not yet bound in a partial labeling — the
decreasing measure of the traversal. -/
def missingCount (R : List Record) (m : List (ℤ × ℤ)) : ℕ :=
  ((rids R).filter (fun i => (alookup i m).isNone)).length

/-- The set of per-axis box-intersection parameters of the segment
`p → relative`, as the spec describes them: `(bound - p[d]) / dist[d]`
for each axis `d` with `dist[d] ≠ 0` and each of the two bounds. -/
def s_param_set (p relative : V3 ℚ) (min_bb max_bb : V3 ℤ) : Set ℚ :=
  {s | ∃ d : Fin 3, (V3.zipWith (fun a b => a - b) relative p).get d ≠ 0 ∧
        (s = ((min_bb.get d : ℚ) - p.get d) / (V3.zipWith (fun a b => a - b) relative p).get d ∨
          s = ((max_bb.get d : ℚ) - p.get d) / (V3.zipWith (fun a b => a - b) relative p).get d)}

/-- Two voxels are 8-connected (N-D analogue: Chebyshev distance at most
one). -/
def adj8 (a b : V3 ℤ) : Prop :=
  ∀ d : Fin 3, (a.get d - b.get d).natAbs ≤ 1

theorem V3.get_map {α β : Type} (f : α → β) (v : V3 α) (d : Fin 3) :
    (v.map f).get d = f (v.get d) := by
  fin_cases d <;> rfl

theorem V3.get_zipWith {α β γ : Type} (f : α → β → γ) (u : V3 α) (v : V3 β) (d : Fin 3) :
    (V3.zipWith f u v).get d = f (u.get d) (v.get d) := by
  fin_cases d <;> rfl

theorem V3.get_ofInt (v : V3 ℤ) (d : Fin 3) :
    (V3.ofInt v).get d = ((v.get d : ℤ) : ℚ) := by
  fin_cases d <;> rfl

theorem V3.ext_get {α : Type} {u v : V3 α} (h : ∀ d : Fin 3, u.get d = v.get d) :
    u = v := by
  cases u
  cases v
  have h0 := h 0
  have h1 := h 1
  have h2 := h 2
  simp only [V3.get] at h0 h1 h2
  subst h0 h1 h2
  rfl

theorem keep_point_iff (r : Record) (min_bb max_bb : V3 ℤ) :
    keep_point r min_bb max_bb = true ↔
      ∀ d : Fin 3, (min_bb.get d : ℚ) ≤ r.loc.get d ∧ r.loc.get d ≤ (max_bb.get d : ℚ) := by
  have hfin : List.finRange 3 = [0, 1, 2] := rfl
  rw [keep_point, hfin]
  simp only [List.foldl_cons, List.foldl_nil, Bool.and_eq_true, Bool.true_and,
    decide_eq_true_eq]
  constructor
  · intro h d
    fin_cases d
    · exact ⟨h.1.1.1.1.1, h.1.1.1.1.2⟩
    · exact ⟨h.1.1.1.2, h.1.1.2⟩
    · exact ⟨h.1.2, h.2⟩
  · intro h
    exact ⟨⟨⟨⟨⟨(h 0).1, (h 0).2⟩, (h 1).1⟩, (h 1).2⟩, (h 2).1⟩, (h 2).2⟩

/-- C9: for a region query with origin `roi.start` and end `roi.rend`, a
stored point is kept by the filter step of `provide` iff on every axis
`start[d] ≤ location[d] ≤ end[d] - 1` (closed lower bound, inclusive
upper bound of end minus one). -/
theorem C9_region_filter (r : Record) (roi : Roi) :
    keep_point r roi.start (V3.zipWith (fun a b => a - b) roi.rend ⟨1, 1, 1⟩) = true ↔
      ∀ d : Fin 3, (roi.start.get d : ℚ) ≤ r.loc.get d ∧
        r.loc.get d ≤ (roi.rend.get d : ℚ) - 1 := by
  rw [keep_point_iff]
  have hone : ∀ d : Fin 3, ((V3.mk 1 1 1 : V3 ℤ)).get d = 1 := by
    intro d; fin_cases d <;> rfl
  constructor <;> intro h d <;> have hd := h d <;>
    rw [V3.get_zipWith] at * <;>
    [skip; skip] <;> constructor
  · exact hd.1
  · have := hd.2
    rw [hone d] at this
    push_cast at this ⊢
    linarith
  · exact hd.1
  · rw [hone d]
    push_cast
    linarith [hd.2]

/-- C10: rasterization rejects an empty point map — `process` fails on
the emptiness assertion instead of returning an all-zero array — even
though an empty point map is a value `provide` can return (second
conjunct: a query region far away from all data points yields `.ok []`). -/
theorem C10_empty_point_map :
    (∀ (edges : List (ℤ × ℤ)) (voxel_size : V3 ℚ) (offset : V3 ℤ) (dtype : Dtype),
        process [] edges voxel_size offset dtype = .error .noPoints) ∧
      provide_points [⟨0, 0, 0, 1, 1, 0⟩] ⟨⟨100, 100, 100⟩, ⟨5, 5, 5⟩⟩ = .ok [] := by
  exact ⟨fun _ _ _ _ => rfl, by decide⟩

/-- C4 counterexample: a graph consisting of one single point and no
edges rasterizes to a grid that is 0 at that point's voxel — the lone
voxel is *not* marked with the component's label, because only edges are
drawn. -/
theorem C4_counterexample :
    process [((1 : ℤ), (⟨0, 0, 0⟩ : V3 ℚ))] [] ⟨1, 1, 1⟩ ⟨0, 0, 0⟩ Dtype.int32 =
        .ok (grid_fun [((1 : ℤ), (⟨0, 0, 0⟩ : V3 ℚ))] [] ⟨1, 1, 1⟩ ⟨0, 0, 0⟩ Dtype.int32) ∧
      grid_fun [((1 : ℤ), (⟨0, 0, 0⟩ : V3 ℚ))] [] ⟨1, 1, 1⟩ ⟨0, 0, 0⟩ Dtype.int32 ⟨0, 0, 0⟩ = 0 := by
  exact ⟨rfl, by decide⟩

/-- C5 counterexample: the two endpoint conversions in `process` are not
the same formula (offset is subtracted before truncation for `u`, after
truncation for `v`, so they disagree at a negative coordinate), and
neither is round-to-nearest (truncation of 2.7 gives 2, rounding gives 3). -/
theorem C5_counterexample :
    p1_convert ⟨-1/2, 0, 0⟩ ⟨1, 1, 1⟩ ⟨-3, 0, 0⟩ ≠
        p2_convert ⟨-1/2, 0, 0⟩ ⟨1, 1, 1⟩ ⟨-3, 0, 0⟩ ∧
      p1_convert ⟨27/10, 0, 0⟩ ⟨1, 1, 1⟩ ⟨0, 0, 0⟩ ≠
        spec_round_convert ⟨27/10, 0, 0⟩ ⟨1, 1, 1⟩ ⟨0, 0, 0⟩ := by
  decide

/-- C7 counterexample: a record table with a duplicated `point_id`
(records `(1, parent 1)` and `(1, parent 2)`) is accepted without any
error by construction/labeling — no `MalformedInputError` exists in the
code. -/
theorem C7_counterexample :
    label_skeletons [⟨0, 0, 0, 1, 1, 0⟩, ⟨1, 0, 0, 1, 2, 0⟩] =
      .ok [⟨0, 0, 0, 1, 1, 1⟩, ⟨1, 0, 0, 1, 2, 1⟩] := by
  decide

/-- C7 amended: construction performs no uniqueness or
parent-existence validation — a duplicated `point_id` can be accepted
silently, and a dangling `parent_id` (99 here) surfaces as a missing-key
lookup error (`KeyError`) in the final relabel pass, not as a
`MalformedInputError`. -/
theorem C7_amended :
    label_skeletons [⟨0, 0, 0, 1, 1, 0⟩, ⟨1, 0, 0, 1, 2, 0⟩] =
        .ok [⟨0, 0, 0, 1, 1, 1⟩, ⟨1, 0, 0, 1, 2, 1⟩] ∧
      label_skeletons [⟨0, 0, 0, 1, 1, 0⟩, ⟨1, 0, 0, 2, 99, 0⟩] = .error .keyError := by
  constructor <;> decide

/-- C2 counterexample: a record set whose only cycle (2 ↔ 3) is not
reachable from any root fails with the `KeyError` of the final relabel
pass, not with the loop-detection error. -/
theorem C2_counterexample :
    label_skeletons [⟨0, 0, 0, 1, 1, 0⟩, ⟨1, 0, 0, 2, 3, 0⟩, ⟨2, 0, 0, 3, 2, 0⟩] =
        .error .keyError ∧
      SwcErr.keyError ≠ SwcErr.cycleDetected := by
  constructor <;> decide

/-- C2 amended: a cycle among non-root points that is unreachable from
every root makes the labeling pass fail, but with the missing-key error
of the final relabel loop rather than the cycle error (which also names
no point id); the cycle error is raised whenever the point about to be
labeled already has a label assigned in the same traversal pass. -/
theorem C2_amended :
    label_skeletons [⟨0, 0, 0, 1, 1, 0⟩, ⟨1, 0, 0, 2, 3, 0⟩, ⟨2, 0, 0, 3, 2, 0⟩] =
        .error .keyError ∧
      ∀ (p2c : List (ℤ × List ℤ)) (fuel : ℕ) (p l : ℤ) (m : List (ℤ × ℤ)),
        (alookup p m).isSome = true →
        label_skeleton p2c (fuel + 1) p l m = .error .cycleDetected := by
  refine ⟨by decide, ?_⟩
  intro p2c fuel p l m h
  simp [label_skeleton, h]

/-- Witness for `C2_amended`: the already-labeled guard fires at a
concrete input. -/
theorem C2_witness :
    (alookup 7 [((7 : ℤ), (1 : ℤ))]).isSome = true ∧
      label_skeleton [] 1 7 5 [(7, 1)] = .error .cycleDetected := by
  exact ⟨by decide, C2_amended.2 [] 0 7 5 [(7, 1)] (by decide)⟩

/-- C4 amended: a weakly-connected component with no edges (in
particular a singleton point) contributes an empty mask and therefore
marks *no* voxel — only edges are rasterized — although the component
still consumes a label index (third conjunct: the singleton component is
enumerated). -/
theorem C4_amended :
    (∀ (nodes : List (ℤ × V3 ℚ)) (edges : List (ℤ × ℤ)) (voxel_size : V3 ℚ)
        (offset : V3 ℤ) (cc : List ℤ),
        edges.filter (fun e => cc.contains e.1 && cc.contains e.2) = [] →
        component_mask nodes edges voxel_size offset cc = []) ∧
      grid_fun [((1 : ℤ), (⟨0, 0, 0⟩ : V3 ℚ))] [] ⟨1, 1, 1⟩ ⟨0, 0, 0⟩ Dtype.int32
          ⟨0, 0, 0⟩ = 0 ∧
      (weakly_connected_components [1] []).length = 1 := by
  refine ⟨?_, by decide, by decide⟩
  intro nodes edges voxel_size offset cc h
  rw [component_mask, h]
  rfl

/-- Witness for `C4_amended`: an edge outside the component leaves the
mask empty. -/
theorem C4_witness :
    ([((1 : ℤ), (2 : ℤ))].filter
        (fun e => [(3 : ℤ)].contains e.1 && [(3 : ℤ)].contains e.2) = []) ∧
      component_mask [] [(1, 2)] ⟨1, 1, 1⟩ ⟨0, 0, 0⟩ [3] = [] :=
  ⟨by decide, C4_amended.1 [] [(1, 2)] ⟨1, 1, 1⟩ ⟨0, 0, 0⟩ [3] (by decide)⟩

/-- C5 amended: both endpoint conversions use truncation toward zero
(`astype(int)`), with the grid offset subtracted before truncation for
`u` (`p1_convert`) and after truncation for `v` (`p2_convert`); the two
agree on inputs whose scaled location is nonnegative and at least the
offset (the in-bounds case), though not identically in general. -/
theorem C5_amended (location voxel_size : V3 ℚ) (offset : V3 ℤ)
    (h : ∀ d : Fin 3, 0 ≤ location.get d / voxel_size.get d ∧
        (offset.get d : ℚ) ≤ location.get d / voxel_size.get d) :
    p1_convert location voxel_size offset = p2_convert location voxel_size offset := by
  apply V3.ext_get
  intro d
  simp only [p1_convert, p2_convert, V3.get_map, V3.get_zipWith, V3.get_ofInt]
  have h1 : (0 : ℚ) ≤ location.get d / voxel_size.get d := (h d).1
  have h2 : ((offset.get d : ℤ) : ℚ) ≤ location.get d / voxel_size.get d := (h d).2
  rw [truncQ, truncQ, if_pos h1, if_pos (by linarith :
    (0 : ℚ) ≤ location.get d / voxel_size.get d - (offset.get d : ℤ))]
  exact Int.floor_sub_int _ _

/-- Witness for `C5_amended` at a concrete in-bounds input. -/
theorem C5_witness :
    p1_convert ⟨5/2, 0, 0⟩ ⟨1, 1, 1⟩ ⟨1, 0, 0⟩ =
      p2_convert ⟨5/2, 0, 0⟩ ⟨1, 1, 1⟩ ⟨1, 0, 0⟩ :=
  C5_amended ⟨5/2, 0, 0⟩ ⟨1, 1, 1⟩ ⟨1, 0, 0⟩
    (by intro d; fin_cases d <;> constructor <;> norm_num [V3.get])

/-- C8 counterexample: with the bool dtype (max representable label
value 1) and two components, `process` succeeds and writes the cast of
label 2, which reads back as 1 — no `LabelOverflowError` exists. -/
theorem C8_counterexample :
    (weakly_connected_components [1, 2, 3, 4] [(1, 2), (3, 4)]).length = 2 ∧
      Dtype.maxVal .boolD < 2 ∧
      process [((1 : ℤ), (⟨0, 0, 0⟩ : V3 ℚ)), (2, ⟨1, 0, 0⟩), (3, ⟨5, 0, 0⟩), (4, ⟨6, 0, 0⟩)]
          [(1, 2), (3, 4)] ⟨1, 1, 1⟩ ⟨0, 0, 0⟩ .boolD =
        .ok (grid_fun
          [((1 : ℤ), (⟨0, 0, 0⟩ : V3 ℚ)), (2, ⟨1, 0, 0⟩), (3, ⟨5, 0, 0⟩), (4, ⟨6, 0, 0⟩)]
          [(1, 2), (3, 4)] ⟨1, 1, 1⟩ ⟨0, 0, 0⟩ .boolD) ∧
      grid_fun [((1 : ℤ), (⟨0, 0, 0⟩ : V3 ℚ)), (2, ⟨1, 0, 0⟩), (3, ⟨5, 0, 0⟩), (4, ⟨6, 0, 0⟩)]
          [(1, 2), (3, 4)] ⟨1, 1, 1⟩ ⟨0, 0, 0⟩ .boolD ⟨5, 0, 0⟩ = 1 := by
  refine ⟨by decide, by decide, rfl, by decide⟩

/-- C8 amended: `process` performs no dtype-range check — for every
nonempty point map it succeeds regardless of the component count, and
label values are written through the numpy dtype cast (with a bool
dtype every label reads back as 1, so the two components of the
concrete input are indistinguishable in the output). -/
theorem C8_amended :
    (∀ (nodes : List (ℤ × V3 ℚ)) (edges : List (ℤ × ℤ)) (voxel_size : V3 ℚ)
        (offset : V3 ℤ) (dtype : Dtype), nodes ≠ [] →
        process nodes edges voxel_size offset dtype =
          .ok (grid_fun nodes edges voxel_size offset dtype)) ∧
      (∀ i : ℕ, Dtype.castVal .boolD ((i : ℤ) + 1) = 1) ∧
      grid_fun [((1 : ℤ), (⟨0, 0, 0⟩ : V3 ℚ)), (2, ⟨1, 0, 0⟩), (3, ⟨5, 0, 0⟩), (4, ⟨6, 0, 0⟩)]
          [(1, 2), (3, 4)] ⟨1, 1, 1⟩ ⟨0, 0, 0⟩ .boolD ⟨0, 0, 0⟩ = 1 ∧
      grid_fun [((1 : ℤ), (⟨0, 0, 0⟩ : V3 ℚ)), (2, ⟨1, 0, 0⟩), (3, ⟨5, 0, 0⟩), (4, ⟨6, 0, 0⟩)]
          [(1, 2), (3, 4)] ⟨1, 1, 1⟩ ⟨0, 0, 0⟩ .boolD ⟨5, 0, 0⟩ = 1 := by
  refine ⟨?_, ?_, by decide, by decide⟩
  · intro nodes edges voxel_size offset dtype h
    rw [process, if_neg]
    simp [List.isEmpty_iff, h]
  · intro i
    have : ((i : ℤ) + 1) ≠ 0 := by positivity
    simp [Dtype.castVal, this]

/-- Witness for `C8_amended`: `process` succeeds on a concrete
nonempty input. -/
theorem C8_witness :
    process [((1 : ℤ), (⟨0, 0, 0⟩ : V3 ℚ))] [] ⟨1, 1, 1⟩ ⟨0, 0, 0⟩ .int8 =
      .ok (grid_fun [((1 : ℤ), (⟨0, 0, 0⟩ : V3 ℚ))] [] ⟨1, 1, 1⟩ ⟨0, 0, 0⟩ .int8) :=
  C8_amended.1 [((1 : ℤ), (⟨0, 0, 0⟩ : V3 ℚ))] [] ⟨1, 1, 1⟩ ⟨0, 0, 0⟩ .int8 (by decide)

/-- C1 counterexample: for the spec's own example — kept point at
`(0,0,0)`, missing parent at `(10,0,0)`, region origin `(0,0,0)` size
`(5,1,1)` — the code synthesizes the boundary point at `(0,0,0)` (the
intersection parameter `s = 0` is admitted by the `s_bb >= 0` mask and is
the minimum), not at `(4,0,0)`; its `parent_id` is `-1`. -/
theorem C1_counterexample :
    resample_relative ⟨0, 0, 0⟩ ⟨10, 0, 0⟩ ⟨0, 0, 0⟩ ⟨4, 0, 0⟩ = .ok ⟨0, 0, 0⟩ ∧
      provide_points [⟨0, 0, 0, 1, 2, 1⟩, ⟨10, 0, 0, 2, 2, 1⟩] ⟨⟨0, 0, 0⟩, ⟨5, 1, 1⟩⟩ =
        .ok [(1, ⟨⟨0, 0, 0⟩, 1, 2, 1⟩), (2, ⟨⟨0, 0, 0⟩, 2, -1, 1⟩)] ∧
      (⟨0, 0, 0⟩ : V3 ℤ) ≠ ⟨4, 0, 0⟩ := by
  refine ⟨by decide, by decide, by decide⟩

theorem foldl_min_mem (s0 : ℚ) (rest : List ℚ) : rest.foldl min s0 ∈ s0 :: rest := by
  induction rest generalizing s0 with
  | nil => simp
  | cons c t ih =>
    simp only [List.foldl_cons]
    have h := ih (min s0 c)
    rcases List.mem_cons.mp h with h | h
    · rcases min_choice s0 c with hm | hm
      · rw [h, hm]; exact List.mem_cons_self _ _
      · rw [h, hm]; exact List.mem_cons_of_mem _ (List.mem_cons_self _ _)
    · exact List.mem_cons_of_mem _ (List.mem_cons_of_mem _ h)

theorem foldl_min_le (s0 : ℚ) (rest : List ℚ) :
    ∀ t ∈ s0 :: rest, rest.foldl min s0 ≤ t := by
  induction rest generalizing s0 with
  | nil =>
    intro t ht
    rcases List.mem_cons.mp ht with rfl | h
    · simp
    · cases h
  | cons c tl ih =>
    intro t ht
    simp only [List.foldl_cons]
    rcases List.mem_cons.mp ht with rfl | ht
    · exact le_trans (ih (min t c) (min t c) (List.mem_cons_self _ _)) (min_le_left _ _)
    rcases List.mem_cons.mp ht with rfl | ht
    · exact le_trans (ih (min s0 t) (min s0 t) (List.mem_cons_self _ _)) (min_le_right _ _)
    · exact ih (min s0 c) t (List.mem_cons_of_mem _ ht)

theorem mem_s_candidates (p relative : V3 ℚ) (min_bb max_bb : V3 ℤ) (t : ℚ) :
    t ∈ s_candidates p relative min_bb max_bb ↔
      t ∈ s_param_set p relative min_bb max_bb := by
  simp only [s_candidates, List.mem_flatMap, List.mem_finRange, true_and,
    s_param_set, Set.mem_setOf_eq]
  constructor
  · rintro ⟨d, hd⟩
    by_cases h0 : (V3.zipWith (fun a b => a - b) relative p).get d = 0
    · rw [if_pos h0] at hd
      cases hd
    · rw [if_neg h0] at hd
      rcases List.mem_cons.mp hd with h | h
      · exact ⟨d, h0, Or.inl h⟩
      rcases List.mem_cons.mp h with h | h
      · exact ⟨d, h0, Or.inr h⟩
      · cases h
  · rintro ⟨d, h0, ht⟩
    refine ⟨d, ?_⟩
    rw [if_neg h0]
    rcases ht with rfl | rfl
    · exact List.mem_cons_self _ _
    · exact List.mem_cons_of_mem _ (List.mem_cons_self _ _)

/-- C1 amended: in the spec's example the synthesized boundary point is
at `(0,0,0)` (with `parent_id = -1`), not `(4,0,0)`; in general the
boundary point's location is `floor(p + s * (relative - p))` where `s`
is the minimum of the per-axis intersection parameters lying in the
*closed* interval `[0, 1]` — `s = 0` is admitted (and selected when the
kept point lies on the region face), since the code's mask is
`s_bb >= 0`, not `s_bb > 0`. -/
theorem C1_amended :
    (provide_points [⟨0, 0, 0, 1, 2, 1⟩, ⟨10, 0, 0, 2, 2, 1⟩] ⟨⟨0, 0, 0⟩, ⟨5, 1, 1⟩⟩ =
        .ok [(1, ⟨⟨0, 0, 0⟩, 1, 2, 1⟩), (2, ⟨⟨0, 0, 0⟩, 2, -1, 1⟩)]) ∧
      ∀ (p relative : V3 ℚ) (min_bb max_bb : V3 ℤ) (loc : V3 ℤ),
        resample_relative p relative min_bb max_bb = .ok loc →
        ∃ s ∈ s_param_set p relative min_bb max_bb,
          0 ≤ s ∧ s ≤ 1 ∧
          (∀ t ∈ s_param_set p relative min_bb max_bb, 0 ≤ t → t ≤ 1 → s ≤ t) ∧
          loc = V3.map (fun q => ⌊q⌋)
            (V3.zipWith (fun pd dd => pd + s * dd) p
              (V3.zipWith (fun a b => a - b) relative p)) := by
  refine ⟨by decide, ?_⟩
  intro p relative min_bb max_bb loc h
  simp only [resample_relative] at h
  rcases hfil : (s_candidates p relative min_bb max_bb).filter
      (fun s => decide (0 ≤ s) && decide (s ≤ 1)) with _ | ⟨s0, rest⟩
  · rw [hfil] at h
    cases h
  · rw [hfil] at h
    set s := rest.foldl min s0 with hs
    have hmem : s ∈ s0 :: rest := foldl_min_mem s0 rest
    have hmemf : s ∈ (s_candidates p relative min_bb max_bb).filter
        (fun s => decide (0 ≤ s) && decide (s ≤ 1)) := by
      rw [hfil]; exact hmem
    have hprops := List.mem_filter.mp hmemf
    have hcand : s ∈ s_candidates p relative min_bb max_bb := hprops.1
    have hbounds : 0 ≤ s ∧ s ≤ 1 := by
      have := hprops.2
      simp only [Bool.and_eq_true, decide_eq_true_eq] at this
      exact this
    refine ⟨s, (mem_s_candidates p relative min_bb max_bb s).mp hcand,
      hbounds.1, hbounds.2, ?_, ?_⟩
    · intro t htset ht0 ht1
      have htc : t ∈ s_candidates p relative min_bb max_bb :=
        (mem_s_candidates p relative min_bb max_bb t).mpr htset
      have htf : t ∈ (s_candidates p relative min_bb max_bb).filter
          (fun s => decide (0 ≤ s) && decide (s ≤ 1)) := by
        refine List.mem_filter.mpr ⟨htc, ?_⟩
        simp [ht0, ht1]
      rw [hfil] at htf
      exact foldl_min_le s0 rest t htf
    · cases h
      rfl

/-- Witness for `C1_amended`: the general characterization applied to
the spec example. -/
theorem C1_witness :
    resample_relative ⟨0, 0, 0⟩ ⟨10, 0, 0⟩ ⟨0, 0, 0⟩ ⟨4, 0, 0⟩ = .ok ⟨0, 0, 0⟩ ∧
      ∃ s ∈ s_param_set ⟨0, 0, 0⟩ ⟨10, 0, 0⟩ ⟨0, 0, 0⟩ ⟨4, 0, 0⟩,
        0 ≤ s ∧ s ≤ 1 ∧
        (∀ t ∈ s_param_set ⟨0, 0, 0⟩ ⟨10, 0, 0⟩ ⟨0, 0, 0⟩ ⟨4, 0, 0⟩,
          0 ≤ t → t ≤ 1 → s ≤ t) ∧
        (⟨0, 0, 0⟩ : V3 ℤ) = V3.map (fun q => ⌊q⌋)
          (V3.zipWith (fun pd dd => pd + s * dd) (⟨0, 0, 0⟩ : V3 ℚ)
            (V3.zipWith (fun a b => a - b) ⟨10, 0, 0⟩ ⟨0, 0, 0⟩)) :=
  ⟨by decide, C1_amended.2 ⟨0, 0, 0⟩ ⟨10, 0, 0⟩ ⟨0, 0, 0⟩ ⟨4, 0, 0⟩ ⟨0, 0, 0⟩ (by decide)⟩

theorem rintQ_intCast (n : ℤ) : rintQ (n : ℚ) = n := by
  rw [rintQ]
  simp only [Int.floor_intCast]
  rw [if_pos]
  rw [sub_self]
  norm_num

theorem le_rintQ (q : ℚ) : q - 1 / 2 ≤ (rintQ q : ℚ) := by
  have h1 : (⌊q⌋ : ℚ) ≤ q := Int.floor_le q
  have h2 : q < ⌊q⌋ + 1 := Int.lt_floor_add_one q
  rw [rintQ]
  split_ifs with ha hb hc <;> push_cast <;> linarith

theorem rintQ_le (q : ℚ) : (rintQ q : ℚ) ≤ q + 1 / 2 := by
  have h1 : (⌊q⌋ : ℚ) ≤ q := Int.floor_le q
  have h2 : q < ⌊q⌋ + 1 := Int.lt_floor_add_one q
  rw [rintQ]
  split_ifs with ha hb hc <;> push_cast <;> linarith

theorem rintQ_near_int (n : ℤ) (q : ℚ) (h : |q - (n : ℚ)| ≤ 1) :
    (n - rintQ q).natAbs ≤ 1 := by
  have h1 := le_rintQ q
  have h2 := rintQ_le q
  rw [abs_le] at h
  have hlo : ((n - 2 : ℤ) : ℚ) < (rintQ q : ℚ) := by push_cast; linarith
  have hhi : (rintQ q : ℚ) < ((n + 2 : ℤ) : ℚ) := by push_cast; linarith
  have hlo' : n - 2 < rintQ q := by exact_mod_cast hlo
  have hhi' : rintQ q < n + 2 := by exact_mod_cast hhi
  omega

theorem rintQ_adj_lt (a b : ℚ) (h : |b - a| < 1) :
    (rintQ a - rintQ b).natAbs ≤ 1 := by
  have h1a := le_rintQ a
  have h2a := rintQ_le a
  have h1b := le_rintQ b
  have h2b := rintQ_le b
  rw [abs_lt] at h
  have hlo : ((-2 : ℤ) : ℚ) < (rintQ a : ℚ) - (rintQ b : ℚ) := by push_cast; linarith
  have hhi : (rintQ a : ℚ) - (rintQ b : ℚ) < ((2 : ℤ) : ℚ) := by push_cast; linarith
  have hlo' : (-2 : ℤ) < rintQ a - rintQ b := by exact_mod_cast hlo
  have hhi' : rintQ a - rintQ b < 2 := by exact_mod_cast hhi
  omega

theorem chain_range_map {α : Type} (Rel : α → α → Prop) (a : α) (f : ℕ → α) (n : ℕ)
    (h0 : 0 < n → Rel a (f 0))
    (hstep : ∀ k, k + 1 < n → Rel (f k) (f (k + 1))) :
    List.Chain Rel a ((List.range n).map f) := by
  induction n generalizing a f with
  | zero => exact List.Chain.nil
  | succ m ih =>
    rw [List.range_succ_eq_map, List.map_cons, List.map_map]
    refine List.Chain.cons (h0 (Nat.succ_pos m)) ?_
    exact ih (f 0) (f ∘ Nat.succ)
      (fun hm => hstep 0 (by omega))
      (fun k hk => hstep (k + 1) (by omega))

theorem natAbs_le_maxAbs (v : V3 ℤ) (d : Fin 3) : (v.get d).natAbs ≤ maxAbs v := by
  fin_cases d <;> simp [maxAbs, V3.get] <;> omega

theorem maxAbs_pos_of_ne {s e : V3 ℤ} (h : s ≠ e) : 0 < maxAbs (vsub e s) := by
  rcases Nat.eq_zero_or_pos (maxAbs (vsub e s)) with h0 | h0
  · exfalso
    apply h
    apply V3.ext_get
    intro d
    have hd := natAbs_le_maxAbs (vsub e s) d
    rw [h0] at hd
    have : (vsub e s).get d = 0 := by omega
    rw [vsub, V3.get_zipWith] at this
    omega
  · exact h0

theorem vsub_get (u v : V3 ℤ) (d : Fin 3) : (vsub u v).get d = u.get d - v.get d := by
  rw [vsub, V3.get_zipWith]

theorem bresenhamline_nslope_get (c : V3 ℤ) (h : maxAbs c ≠ 0) (d : Fin 3) :
    (bresenhamline_nslope c).get d = ((c.get d : ℤ) : ℚ) / ((maxAbs c : ℕ) : ℚ) := by
  rw [bresenhamline_nslope]
  simp only [h, if_false, V3.get_map]

theorem nslope_abs_le (c : V3 ℤ) (h : maxAbs c ≠ 0) (d : Fin 3) :
    |(bresenhamline_nslope c).get d| ≤ 1 := by
  rw [bresenhamline_nslope_get c h d]
  have hn : (0 : ℚ) < ((maxAbs c : ℕ) : ℚ) := by
    exact_mod_cast Nat.pos_of_ne_zero h
  rw [abs_div, abs_of_pos hn, div_le_one hn]
  have hle := natAbs_le_maxAbs c d
  calc |((c.get d : ℤ) : ℚ)| = (((c.get d).natAbs : ℕ) : ℚ) := by
        rw [Int.cast_natAbs, Int.cast_abs]
    _ ≤ ((maxAbs c : ℕ) : ℚ) := by exact_mod_cast hle

theorem nslope_abs_lt (c : V3 ℤ) (h : maxAbs c ≠ 0) (d : Fin 3)
    (hlt : (c.get d).natAbs < maxAbs c) :
    |(bresenhamline_nslope c).get d| < 1 := by
  rw [bresenhamline_nslope_get c h d]
  have hn : (0 : ℚ) < ((maxAbs c : ℕ) : ℚ) := by
    exact_mod_cast Nat.pos_of_ne_zero h
  rw [abs_div, abs_of_pos hn, div_lt_one hn]
  calc |((c.get d : ℤ) : ℚ)| = (((c.get d).natAbs : ℕ) : ℚ) := by
        rw [Int.cast_natAbs, Int.cast_abs]
    _ < ((maxAbs c : ℕ) : ℚ) := by exact_mod_cast hlt

/-- C6: for distinct integer voxel endpoints, the digital line walks
exactly `max |per-axis delta|` unit steps (the direction having been
normalized by its largest-magnitude axis), the marked voxel set contains
both endpoints, and the walked voxel sequence is 8-connected (Chebyshev
distance ≤ 1 between consecutive voxels) from `s` to `e`. -/
theorem C6_digital_line (s e : V3 ℤ) (h : s ≠ e) :
    (bresenhamline s e (-1)).length = maxAbs (vsub e s) ∧
      s ∈ rasterize_line_segment s e [] ∧
      e ∈ rasterize_line_segment s e [] ∧
      List.Chain adj8 s (bresenhamline s e (-1)) ∧
      (bresenhamline s e (-1)).getLast? = some e := by
  have hn : 0 < maxAbs (vsub e s) := maxAbs_pos_of_ne h
  have hn0 : maxAbs (vsub e s) ≠ 0 := Nat.pos_iff_ne_zero.mp hn
  have hnq : ((maxAbs (vsub e s) : ℕ) : ℚ) ≠ 0 := by
    exact_mod_cast hn0
  have hb : bresenhamline s e (-1) =
      (List.range (maxAbs (vsub e s))).map (fun (k : ℕ) =>
        V3.map rintQ (V3.zipWith (fun (a : ℤ) (ns : ℚ) => (a : ℚ) + ((k : ℚ) + 1) * ns)
          s (bresenhamline_nslope (vsub e s)))) := by
    rw [bresenhamline]
    norm_num
  have hfget : ∀ (k : ℕ) (d : Fin 3),
      (V3.map rintQ (V3.zipWith (fun (a : ℤ) (ns : ℚ) => (a : ℚ) + ((k : ℚ) + 1) * ns)
          s (bresenhamline_nslope (vsub e s)))).get d =
        rintQ ((s.get d : ℚ) + ((k : ℚ) + 1) * (bresenhamline_nslope (vsub e s)).get d) := by
    intro k d
    rw [V3.get_map, V3.get_zipWith]
  have hlastv : ∀ d : Fin 3,
      (V3.map rintQ
        (V3.zipWith (fun (a : ℤ) (ns : ℚ) => (a : ℚ) + (((maxAbs (vsub e s) - 1 : ℕ) : ℚ) + 1) * ns)
          s (bresenhamline_nslope (vsub e s)))).get d = e.get d := by
    intro d
    rw [hfget (maxAbs (vsub e s) - 1) d]
    have hone : (1 : ℕ) ≤ maxAbs (vsub e s) := hn
    have hcast : ((maxAbs (vsub e s) - 1 : ℕ) : ℚ) + 1 = ((maxAbs (vsub e s) : ℕ) : ℚ) := by
      rw [Nat.cast_sub hone]
      push_cast
      ring
    rw [hcast, bresenhamline_nslope_get _ hn0 d, mul_comm, div_mul_cancel₀ _ hnq]
    have : (s.get d : ℚ) + ((vsub e s).get d : ℚ) = (((s.get d + (vsub e s).get d) : ℤ) : ℚ) := by
      push_cast
      ring
    rw [this, rintQ_intCast]
    rw [vsub_get]
    ring
  refine ⟨?_, ?_, ?_, ?_, ?_⟩
  · rw [hb]
    simp
  · rw [rasterize_line_segment]
    simp
  · rw [rasterize_line_segment]
    have he : e ∈ bresenhamline s e (-1) := by
      rw [hb]
      refine List.mem_map.mpr ⟨maxAbs (vsub e s) - 1, List.mem_range.mpr (by omega), ?_⟩
      exact V3.ext_get (fun d => hlastv d)
    simp [he]
  · rw [hb]
    apply chain_range_map
    · intro _
      intro d
      rw [hfget 0 d]
      apply rintQ_near_int
      have hns := nslope_abs_le (vsub e s) hn0 d
      have heq2 : (s.get d : ℚ) + (((0 : ℕ) : ℚ) + 1) * (bresenhamline_nslope (vsub e s)).get d -
          (s.get d : ℚ) = (bresenhamline_nslope (vsub e s)).get d := by
        push_cast
        ring
      rw [heq2]
      exact hns
    · intro k hk d
      rw [hfget k d, hfget (k + 1) d]
      rcases Nat.lt_or_ge ((vsub e s).get d).natAbs (maxAbs (vsub e s)) with hlt | hge
      · apply rintQ_adj_lt
        have hns := nslope_abs_lt (vsub e s) hn0 d hlt
        have : (s.get d : ℚ) + (((k + 1 : ℕ) : ℚ) + 1) * (bresenhamline_nslope (vsub e s)).get d -
            ((s.get d : ℚ) + ((k : ℚ) + 1) * (bresenhamline_nslope (vsub e s)).get d) =
              (bresenhamline_nslope (vsub e s)).get d := by
          push_cast
          ring
        rw [this]
        exact hns
      · have heq : ((vsub e s).get d).natAbs = maxAbs (vsub e s) :=
          le_antisymm (natAbs_le_maxAbs _ d) hge
        have hcase : (vsub e s).get d = (maxAbs (vsub e s) : ℤ) ∨
            (vsub e s).get d = -(maxAbs (vsub e s) : ℤ) := by
          rcases Int.natAbs_eq ((vsub e s).get d) with h1 | h1 <;>
            rw [heq] at h1 <;> [left; right] <;> omega
        obtain ⟨u, hu, hrw⟩ : ∃ u : ℤ, (u = 1 ∨ u = -1) ∧ ∀ j : ℕ,
            rintQ ((s.get d : ℚ) + ((j : ℚ) + 1) * (bresenhamline_nslope (vsub e s)).get d) =
              s.get d + ((j : ℤ) + 1) * u := by
          rcases hcase with h1 | h1
          · refine ⟨1, Or.inl rfl, fun j => ?_⟩
            rw [bresenhamline_nslope_get _ hn0 d, h1, Int.cast_natCast, div_self hnq]
            have hj : (s.get d : ℚ) + ((j : ℚ) + 1) * 1 = (((s.get d + (j + 1) : ℤ)) : ℚ) := by
              push_cast
              ring
            rw [hj, rintQ_intCast]
            ring
          · refine ⟨-1, Or.inr rfl, fun j => ?_⟩
            rw [bresenhamline_nslope_get _ hn0 d, h1]
            have hdiv : ((-(maxAbs (vsub e s) : ℤ) : ℤ) : ℚ) / ((maxAbs (vsub e s) : ℕ) : ℚ) =
                -1 := by
              push_cast
              rw [neg_div, div_self hnq]
            rw [hdiv]
            have hj : (s.get d : ℚ) + ((j : ℚ) + 1) * (-1) = (((s.get d - (j + 1) : ℤ)) : ℚ) := by
              push_cast
              ring
            rw [hj, rintQ_intCast]
            ring
        rw [hrw k, hrw (k + 1)]
        push_cast
        rcases hu with rfl | rfl <;> omega
  · obtain ⟨m, hm⟩ : ∃ m, maxAbs (vsub e s) = m + 1 := ⟨maxAbs (vsub e s) - 1, by omega⟩
    rw [hb, hm, List.range_succ, List.map_append, List.map_cons, List.map_nil]
    rw [List.getLast?_concat]
    have : m = maxAbs (vsub e s) - 1 := by omega
    rw [this]
    exact congrArg some (V3.ext_get (fun d => hlastv d))

theorem alookup_cons {α : Type} (a k : ℤ) (v : α) (m : List (ℤ × α)) :
    alookup k ((a, v) :: m) = if a = k then some v else alookup k m := rfl

theorem alookup_addChild (m : List (ℤ × List ℤ)) (pa c k : ℤ) :
    alookup k (addChild m pa c) =
      if pa = k then some ((alookup pa m).getD [] ++ [c]) else alookup k m := by
  rw [addChild]
  rcases h : alookup pa m with _ | l <;> rw [alookup_cons] <;> split_ifs with hk <;>
    simp [h, hk]

theorem optCat_nil (o : Option (List ℤ)) : optCat o [] = o := by
  rcases o with _ | l <;> simp [optCat]

theorem optCat_none (l : List ℤ) : optCat none l = if l = [] then none else some l := by
  rcases l with _ | ⟨c, t⟩ <;> simp [optCat]

theorem childList_cons (r : Record) (R : List Record) (k : ℤ) :
    childList (r :: R) k =
      if r.parent_id = k ∧ r.point_id ≠ r.parent_id then r.point_id :: childList R k
      else childList R k := by
  rw [childList, childList, List.filter_cons]
  by_cases h : r.parent_id = k ∧ r.point_id ≠ r.parent_id
  · have hb : (r.parent_id == k && r.point_id != r.parent_id) = true := by
      simp only [Bool.and_eq_true, beq_iff_eq, bne_iff_ne]
      exact h
    rw [if_pos hb, if_pos h, List.map_cons]
  · have hb : ¬((r.parent_id == k && r.point_id != r.parent_id) = true) := by
      simp only [Bool.and_eq_true, beq_iff_eq, bne_iff_ne]
      exact h
    rw [if_neg hb, if_neg h]

theorem rootList_cons (r : Record) (R : List Record) :
    rootList (r :: R) =
      if r.point_id = r.parent_id then r.point_id :: rootList R else rootList R := by
  rw [rootList, rootList, List.filter_cons]
  by_cases h : r.point_id = r.parent_id
  · have hb : (r.point_id == r.parent_id) = true := by simpa using h
    rw [if_pos hb, if_pos h, List.map_cons]
  · have hb : ¬((r.point_id == r.parent_id) = true) := by simpa using h
    rw [if_neg hb, if_neg h]

theorem build_maps_sources_aux (R : List Record) (ms : Maps) :
    (R.foldl build_step ms).sources = ms.sources ++ rootList R := by
  induction R generalizing ms with
  | nil => simp [rootList]
  | cons r t ih =>
    rw [List.foldl_cons, ih, rootList_cons, build_step]
    split_ifs with h
    · simp
    · simp

theorem build_maps_sources (R : List Record) :
    (build_maps R).sources = rootList R := by
  rw [build_maps, build_maps_sources_aux]
  rfl

theorem build_maps_p2c_aux (R : List Record) (ms : Maps) (k : ℤ) :
    alookup k (R.foldl build_step ms).p2c = optCat (alookup k ms.p2c) (childList R k) := by
  induction R generalizing ms with
  | nil => simp [childList, optCat_nil]
  | cons r t ih =>
    rw [List.foldl_cons, ih, childList_cons, build_step]
    split_ifs with hroot hcond hcond
    · exfalso
      exact hcond.2 hroot
    · rfl
    · obtain ⟨hpar, hne⟩ := hcond
      rw [alookup_addChild, if_pos hpar]
      rcases h0 : alookup k ms.p2c with _ | l
      · rw [← hpar] at h0
        rw [h0]
        simp [optCat]
      · rw [← hpar] at h0
        rw [h0]
        simp [optCat]
    · rw [alookup_addChild, if_neg]
      intro hpar
      exact hcond ⟨hpar, hroot⟩

theorem p2c_lookup (R : List Record) (k : ℤ) :
    alookup k (build_maps R).p2c =
      if childList R k = [] then none else some (childList R k) := by
  rw [build_maps, build_maps_p2c_aux]
  have : alookup k (Maps.mk [] [] []).p2c = none := rfl
  rw [this, optCat_none]

theorem mem_childList (R : List Record) (a c : ℤ) :
    c ∈ childList R a ↔ childRel R a c := by
  rw [childList, childRel]
  simp only [List.mem_map, List.mem_filter, Bool.and_eq_true, beq_iff_eq, bne_iff_ne,
    ne_eq]
  constructor
  · rintro ⟨r, ⟨hr, hpar, hne⟩, hpid⟩
    exact ⟨r, hr, hpid, by rw [hpar], by intro hc; exact hne hc⟩
  · rintro ⟨r, hr, hpid, hpar, hne⟩
    exact ⟨r, ⟨hr, hpar, hne⟩, hpid⟩

theorem mem_rootList (R : List Record) (i : ℤ) :
    i ∈ rootList R ↔ isRootIn R i := by
  rw [rootList, isRootIn]
  simp only [List.mem_map, List.mem_filter, beq_iff_eq]
  constructor
  · rintro ⟨r, ⟨hr, hroot⟩, hpid⟩
    exact ⟨r, hr, hpid, by rw [← hroot, hpid]⟩
  · rintro ⟨r, hr, hpid, hpar⟩
    exact ⟨r, ⟨hr, by rw [hpid, hpar]⟩, hpid⟩

theorem childList_nodup (R : List Record) (HU : (rids R).Nodup) (a : ℤ) :
    (childList R a).Nodup := by
  rw [childList]
  have hsub : List.Sublist
      ((R.filter (fun r => r.parent_id == a && r.point_id != r.parent_id)).map
        (fun r => r.point_id))
      (R.map (fun r => r.point_id)) :=
    (List.filter_sublist R).map _
  exact List.Nodup.sublist hsub HU

theorem rootList_nodup (R : List Record) (HU : (rids R).Nodup) :
    (rootList R).Nodup := by
  rw [rootList]
  have hsub : List.Sublist
      ((R.filter (fun r => r.point_id == r.parent_id)).map (fun r => r.point_id))
      (R.map (fun r => r.point_id)) :=
    (List.filter_sublist R).map _
  exact List.Nodup.sublist hsub HU

theorem childRel_mem_rids (R : List Record) {a c : ℤ} (h : childRel R a c) :
    c ∈ rids R := by
  obtain ⟨r, hr, hpid, _, _⟩ := h
  exact List.mem_map.mpr ⟨r, hr, hpid⟩

theorem isRootIn_mem_rids (R : List Record) {i : ℤ} (h : isRootIn R i) :
    i ∈ rids R := by
  obtain ⟨r, hr, hpid, _⟩ := h
  exact List.mem_map.mpr ⟨r, hr, hpid⟩

theorem unique_record (R : List Record) (HU : (rids R).Nodup) :
    ∀ r ∈ R, ∀ q ∈ R, r.point_id = q.point_id → r = q := by
  induction R with
  | nil => intro r hr; cases hr
  | cons a t ih =>
    intro r hr q hq hpq
    have hnd := HU
    rw [rids, List.map_cons, List.nodup_cons] at hnd
    rcases List.mem_cons.mp hr with hra | hrt
    · rcases List.mem_cons.mp hq with hqa | hqt
      · rw [hra, hqa]
      · exfalso
        apply hnd.1
        exact List.mem_map.mpr ⟨q, hqt, by rw [← hpq, hra]⟩
    · rcases List.mem_cons.mp hq with hqa | hqt
      · exfalso
        apply hnd.1
        exact List.mem_map.mpr ⟨r, hrt, by rw [hpq, hqa]⟩
      · exact ih hnd.2 r hrt q hqt hpq

theorem childRel_dep (R : List Record) (dep : ℤ → ℕ)
    (HD : ∀ r ∈ R, r.point_id ≠ r.parent_id → dep r.point_id = dep r.parent_id + 1)
    {a c : ℤ} (h : childRel R a c) : dep c = dep a + 1 := by
  obtain ⟨r, hr, hpid, hpar, hne⟩ := h
  have hd := HD r hr hne
  rw [hpid, hpar] at hd
  exact hd

theorem Desc_dep_le (R : List Record) (dep : ℤ → ℕ)
    (HD : ∀ r ∈ R, r.point_id ≠ r.parent_id → dep r.point_id = dep r.parent_id + 1)
    {a b : ℤ} (h : Desc R a b) : dep a ≤ dep b := by
  induction h with
  | refl => exact le_refl _
  | tail hab hrel ih =>
    have := childRel_dep R dep HD hrel
    omega

theorem Desc_eq_of_dep_le (R : List Record) (dep : ℤ → ℕ)
    (HD : ∀ r ∈ R, r.point_id ≠ r.parent_id → dep r.point_id = dep r.parent_id + 1)
    {a b : ℤ} (h : Desc R a b) (hd : dep b ≤ dep a) : a = b := by
  rcases Relation.ReflTransGen.cases_tail h with heq | ⟨c, hac, hcb⟩
  · exact heq.symm
  · have h1 := Desc_dep_le R dep HD hac
    have h2 := childRel_dep R dep HD hcb
    omega

theorem unique_parent (R : List Record) (HU : (rids R).Nodup) {a b c : ℤ}
    (h1 : childRel R a c) (h2 : childRel R b c) : a = b := by
  obtain ⟨r, hr, hrp, hra, _⟩ := h1
  obtain ⟨q, hq, hqp, hqa, _⟩ := h2
  have heq := unique_record R HU r hr q hq (by rw [hrp, hqp])
  rw [← hra, ← hqa, heq]

theorem Desc_comparable (R : List Record) (dep : ℤ → ℕ) (HU : (rids R).Nodup)
    (HD : ∀ r ∈ R, r.point_id ≠ r.parent_id → dep r.point_id = dep r.parent_id + 1) :
    ∀ n : ℕ, ∀ x a b : ℤ, dep x = n → Desc R a x → Desc R b x →
      Desc R a b ∨ Desc R b a := by
  intro n
  induction n using Nat.strong_induction_on with
  | _ n ih =>
    intro x a b hdx hax hbx
    rcases Relation.ReflTransGen.cases_tail hax with heq | ⟨y, hay, hyx⟩
    · right
      rw [heq] at hbx
      exact hbx
    rcases Relation.ReflTransGen.cases_tail hbx with heq2 | ⟨z, hbz, hzx⟩
    · left
      rw [heq2] at hax
      exact hax
    have hyz : y = z := unique_parent R HU hyx hzx
    subst hyz
    have hdy := childRel_dep R dep HD hyx
    exact ih (dep y) (by omega) y a b rfl hay hbz

theorem sibling_disjoint (R : List Record) (dep : ℤ → ℕ) (HU : (rids R).Nodup)
    (HD : ∀ r ∈ R, r.point_id ≠ r.parent_id → dep r.point_id = dep r.parent_id + 1)
    {p c1 c2 x : ℤ} (h1 : childRel R p c1) (h2 : childRel R p c2) (hne : c1 ≠ c2)
    (hd1 : Desc R c1 x) (hd2 : Desc R c2 x) : False := by
  have hdep1 := childRel_dep R dep HD h1
  have hdep2 := childRel_dep R dep HD h2
  rcases Desc_comparable R dep HU HD (dep x) x c1 c2 rfl hd1 hd2 with h | h
  · exact hne (Desc_eq_of_dep_le R dep HD h (by omega))
  · exact hne (Desc_eq_of_dep_le R dep HD h (by omega)).symm

theorem not_desc_parent (R : List Record) (dep : ℤ → ℕ)
    (HD : ∀ r ∈ R, r.point_id ≠ r.parent_id → dep r.point_id = dep r.parent_id + 1)
    {p c : ℤ} (h : childRel R p c) : ¬ Desc R c p := by
  intro hd
  have h1 := childRel_dep R dep HD h
  have h2 := Desc_dep_le R dep HD hd
  omega

theorem root_not_child (R : List Record) (HU : (rids R).Nodup) {i a : ℤ}
    (hroot : isRootIn R i) (h : childRel R a i) : False := by
  obtain ⟨r, hr, hrp, hra⟩ := hroot
  obtain ⟨q, hq, hqp, hqa, hne⟩ := h
  have heq := unique_record R HU r hr q hq (by rw [hrp, hqp])
  rw [heq] at hrp hra
  exact hne (hrp.trans hra.symm)

theorem exists_root (R : List Record) (dep : ℤ → ℕ) (HU : (rids R).Nodup)
    (HP : ∀ r ∈ R, r.point_id ≠ r.parent_id → r.parent_id ∈ rids R)
    (HD : ∀ r ∈ R, r.point_id ≠ r.parent_id → dep r.point_id = dep r.parent_id + 1) :
    ∀ n : ℕ, ∀ i : ℤ, dep i = n → i ∈ rids R →
      ∃ ρ, isRootIn R ρ ∧ Desc R ρ i := by
  intro n
  induction n using Nat.strong_induction_on with
  | _ n ih =>
    intro i hdi hi
    obtain ⟨r, hr, hpid⟩ := List.mem_map.mp hi
    by_cases hroot : r.point_id = r.parent_id
    · refine ⟨i, ⟨r, hr, hpid, ?_⟩, Relation.ReflTransGen.refl⟩
      rw [← hroot]
      exact hpid
    · have hchild : childRel R r.parent_id i := ⟨r, hr, hpid, rfl, hroot⟩
      have hpmem : r.parent_id ∈ rids R := HP r hr hroot
      have hdep : dep i = dep r.parent_id + 1 := by
        have hh := HD r hr hroot
        rw [hpid] at hh
        exact hh
      obtain ⟨ρ, hρroot, hρdesc⟩ := ih (dep r.parent_id) (by omega) r.parent_id rfl hpmem
      exact ⟨ρ, hρroot, hρdesc.tail hchild⟩

theorem root_unique (R : List Record) (dep : ℤ → ℕ) (HU : (rids R).Nodup)
    (HD : ∀ r ∈ R, r.point_id ≠ r.parent_id → dep r.point_id = dep r.parent_id + 1)
    {p1 p2 x : ℤ} (h1 : isRootIn R p1) (h2 : isRootIn R p2)
    (hd1 : Desc R p1 x) (hd2 : Desc R p2 x) : p1 = p2 := by
  rcases Desc_comparable R dep HU HD (dep x) x p1 p2 rfl hd1 hd2 with h | h
  · rcases Relation.ReflTransGen.cases_tail h with heq | ⟨c, hc, hcr⟩
    · exact heq.symm
    · exact (root_not_child R HU h2 hcr).elim
  · rcases Relation.ReflTransGen.cases_tail h with heq | ⟨c, hc, hcr⟩
    · exact heq
    · exact (root_not_child R HU h1 hcr).elim

theorem desc_connected (R : List Record) {a b : ℤ} (h : Desc R a b) :
    Connected R a b :=
  Relation.ReflTransGen.mono (fun _ _ hxy => Or.inl hxy) h

theorem connected_symm (R : List Record) {a b : ℤ} (h : Connected R a b) :
    Connected R b a := by
  have hsym : Symmetric (EdgeRel R) := by
    intro x y hxy
    rcases hxy with hc | hc
    · exact Or.inr hc
    · exact Or.inl hc
  exact Relation.ReflTransGen.symmetric hsym h

theorem connected_root_forward (R : List Record) (dep : ℤ → ℕ) (HU : (rids R).Nodup)
    (HP : ∀ r ∈ R, r.point_id ≠ r.parent_id → r.parent_id ∈ rids R)
    (HD : ∀ r ∈ R, r.point_id ≠ r.parent_id → dep r.point_id = dep r.parent_id + 1)
    {i j : ℤ} (hc : Connected R i j) (hi : i ∈ rids R) :
    j ∈ rids R ∧ ∃ ρ, isRootIn R ρ ∧ Desc R ρ i ∧ Desc R ρ j := by
  induction hc with
  | refl =>
    obtain ⟨ρ, h1, h2⟩ := exists_root R dep HU HP HD (dep i) i rfl hi
    exact ⟨hi, ρ, h1, h2, h2⟩
  | @tail a b hab hedge ih =>
    obtain ⟨hmema, ρ, hρ, hρi, hρa⟩ := ih
    rcases hedge with hce | hce
    · have hmemb := childRel_mem_rids R hce
      exact ⟨hmemb, ρ, hρ, hρi, hρa.tail hce⟩
    · have hmemb : b ∈ rids R := by
        obtain ⟨r, hr, hpid, hpar, hne⟩ := hce
        rw [← hpar]
        exact HP r hr hne
      obtain ⟨ρb, hρb, hρbb⟩ := exists_root R dep HU HP HD (dep b) b rfl hmemb
      have hρba : Desc R ρb a := hρbb.tail hce
      have heqρ : ρ = ρb := root_unique R dep HU HD hρ hρb hρa hρba
      exact ⟨hmemb, ρ, hρ, hρi, heqρ ▸ hρbb⟩

theorem connected_iff_root (R : List Record) (dep : ℤ → ℕ) (HU : (rids R).Nodup)
    (HP : ∀ r ∈ R, r.point_id ≠ r.parent_id → r.parent_id ∈ rids R)
    (HD : ∀ r ∈ R, r.point_id ≠ r.parent_id → dep r.point_id = dep r.parent_id + 1)
    {i j : ℤ} (hi : i ∈ rids R) :
    Connected R i j ↔ ∃ ρ, isRootIn R ρ ∧ Desc R ρ i ∧ Desc R ρ j := by
  constructor
  · intro h
    exact (connected_root_forward R dep HU HP HD h hi).2
  · rintro ⟨ρ, hρ, hρi, hρj⟩
    exact (connected_symm R (desc_connected R hρi)).trans (desc_connected R hρj)

theorem filter_none_insert (L : List ℤ) (hnd : L.Nodup) (p l : ℤ) (hp : p ∈ L)
    (m : List (ℤ × ℤ)) (hnone : alookup p m = none) :
    (L.filter (fun i => (alookup i ((p, l) :: m)).isNone)).length + 1 =
      (L.filter (fun i => (alookup i m).isNone)).length := by
  induction L with
  | nil => cases hp
  | cons a t ih =>
    rw [List.nodup_cons] at hnd
    rcases List.mem_cons.mp hp with rfl | hpt
    · rw [List.filter_cons, List.filter_cons]
      have h1 : (alookup p ((p, l) :: m)).isNone = false := by
        rw [alookup_cons, if_pos rfl]
        rfl
      have h2 : (alookup p m).isNone = true := by
        rw [hnone]
        rfl
      rw [h1, h2]
      have hcongr : t.filter (fun i => (alookup i ((p, l) :: m)).isNone) =
          t.filter (fun i => (alookup i m).isNone) := by
        apply List.filter_congr
        intro x hx
        have hxp : ¬ (p = x) := fun h => hnd.1 (h ▸ hx)
        rw [alookup_cons, if_neg hxp]
      rw [hcongr]
      simp
    · have hne : ¬ (p = a) := by
        intro h
        exact hnd.1 (h ▸ hpt)
      rw [List.filter_cons, List.filter_cons]
      have heq : (alookup a ((p, l) :: m)).isNone = (alookup a m).isNone := by
        rw [alookup_cons, if_neg hne]
      rw [heq]
      by_cases hcase : (alookup a m).isNone = true
      · rw [if_pos hcase, if_pos hcase]
        have := ih hnd.2 hpt
        simp only [List.length_cons]
        omega
      · rw [if_neg hcase, if_neg hcase]
        exact ih hnd.2 hpt

theorem missingCount_insert (R : List Record) (HU : (rids R).Nodup)
    (m : List (ℤ × ℤ)) (p l : ℤ) (hp : p ∈ rids R) (hnone : alookup p m = none) :
    missingCount R ((p, l) :: m) + 1 = missingCount R m :=
  filter_none_insert (rids R) HU p l hp m hnone

theorem missingCount_le (R : List Record) (m : List (ℤ × ℤ)) :
    missingCount R m ≤ R.length := by
  rw [missingCount]
  calc ((rids R).filter (fun i => (alookup i m).isNone)).length
      ≤ (rids R).length := List.length_filter_le _ _
    _ = R.length := List.length_map _ _

theorem missingCount_mono (R : List Record) (m₁ m₂ : List (ℤ × ℤ))
    (h : ∀ k, alookup k m₂ = none → alookup k m₁ = none) :
    missingCount R m₂ ≤ missingCount R m₁ := by
  rw [missingCount, missingCount]
  induction rids R with
  | nil => simp
  | cons a t ih =>
    rw [List.filter_cons, List.filter_cons]
    by_cases h2 : (alookup a m₂).isNone = true
    · have h1 : (alookup a m₁).isNone = true := by
        rw [Option.isNone_iff_eq_none] at h2 ⊢
        exact h a h2
      rw [if_pos h2, if_pos h1]
      simp only [List.length_cons]
      omega
    · rw [if_neg h2]
      by_cases h1 : (alookup a m₁).isNone = true
      · rw [if_pos h1]
        simp only [List.length_cons]
        omega
      · rw [if_neg h1]
        exact ih

theorem label_skeleton_correct (R : List Record) (dep : ℤ → ℕ)
    (HU : (rids R).Nodup)
    (HD : ∀ r ∈ R, r.point_id ≠ r.parent_id → dep r.point_id = dep r.parent_id + 1) :
    ∀ (fuel : ℕ) (p l : ℤ) (m : List (ℤ × ℤ)),
      p ∈ rids R →
      (∀ k, Desc R p k → alookup k m = none) →
      missingCount R m < fuel →
      ∃ m', label_skeleton (build_maps R).p2c fuel p l m = .ok m' ∧
        (∀ k, Desc R p k → alookup k m' = some l) ∧
        (∀ k, ¬ Desc R p k → alookup k m' = alookup k m) := by
  intro fuel
  induction fuel with
  | zero =>
    intro p l m _ _ hf
    omega
  | succ fuel ih =>
    intro p l m hp hd hf
    have hnotin : alookup p m = none := hd p Relation.ReflTransGen.refl
    have hmiss := missingCount_insert R HU m p l hp hnotin
    have hfold : ∀ (cs : List ℤ) (m₁ : List (ℤ × ℤ)),
        (∀ c ∈ cs, childRel R p c) →
        cs.Nodup →
        (∀ c ∈ cs, ∀ k, Desc R c k → alookup k m₁ = none) →
        missingCount R m₁ < fuel →
        ∃ m', cs.foldlM (fun mm c => label_skeleton (build_maps R).p2c fuel c l mm) m₁ =
            .ok m' ∧
          (∀ k, (∃ c ∈ cs, Desc R c k) → alookup k m' = some l) ∧
          (∀ k, ¬ (∃ c ∈ cs, Desc R c k) → alookup k m' = alookup k m₁) := by
      intro cs
      induction cs with
      | nil =>
        intro m₁ _ _ _ _
        refine ⟨m₁, rfl, ?_, fun k _ => rfl⟩
        rintro k ⟨c, hc, _⟩
        cases hc
      | cons c t iht =>
        intro m₁ hcr hnd hdisj hfm
        rw [List.nodup_cons] at hnd
        have hcrids : c ∈ rids R := childRel_mem_rids R (hcr c (List.mem_cons_self c t))
        obtain ⟨m₂, hrun, hin, hout⟩ :=
          ih c l m₁ hcrids (hdisj c (List.mem_cons_self c t)) hfm
        have hm₂none : ∀ k, alookup k m₂ = none → alookup k m₁ = none := by
          intro k hk
          by_cases hdk : Desc R c k
          · rw [hin k hdk] at hk
            cases hk
          · rw [← hout k hdk]
            exact hk
        have hfm₂ : missingCount R m₂ < fuel :=
          lt_of_le_of_lt (missingCount_mono R m₁ m₂ hm₂none) hfm
        have hdisj₂ : ∀ c' ∈ t, ∀ k, Desc R c' k → alookup k m₂ = none := by
          intro c' hc' k hk
          have hnotc : ¬ Desc R c k := by
            intro hck
            exact sibling_disjoint R dep HU HD (hcr c (List.mem_cons_self c t))
              (hcr c' (List.mem_cons_of_mem c hc'))
              (fun h => hnd.1 (h ▸ hc')) hck hk
          rw [hout k hnotc]
          exact hdisj c' (List.mem_cons_of_mem c hc') k hk
        obtain ⟨m₃, hrun₃, hin₃, hout₃⟩ :=
          iht m₂ (fun c' hc' => hcr c' (List.mem_cons_of_mem c hc')) hnd.2 hdisj₂ hfm₂
        refine ⟨m₃, ?_, ?_, ?_⟩
        · rw [List.foldlM_cons, hrun]
          exact hrun₃
        · rintro k ⟨c', hc', hdk⟩
          rcases List.mem_cons.mp hc' with rfl | hct
          · by_cases hex : ∃ c'' ∈ t, Desc R c'' k
            · exact hin₃ k hex
            · rw [hout₃ k hex]
              exact hin k hdk
          · exact hin₃ k ⟨c', hct, hdk⟩
        · intro k hnex
          have hnt : ¬ (∃ c'' ∈ t, Desc R c'' k) := by
            rintro ⟨c'', hc'', hdk''⟩
            exact hnex ⟨c'', List.mem_cons_of_mem c hc'', hdk''⟩
          have hnc : ¬ Desc R c k := fun hdk => hnex ⟨c, List.mem_cons_self c t, hdk⟩
          rw [hout₃ k hnt, hout k hnc]
    have hunfold : label_skeleton (build_maps R).p2c (fuel + 1) p l m =
        (match alookup p (build_maps R).p2c with
          | none => .ok ((p, l) :: m)
          | some [c] => label_skeleton (build_maps R).p2c fuel c l ((p, l) :: m)
          | some cs => cs.foldlM
              (fun mm c => label_skeleton (build_maps R).p2c fuel c l mm)
              ((p, l) :: m)) := by
      rw [label_skeleton, hnotin]
      rfl
    rcases hc : alookup p (build_maps R).p2c with _ | cs
    · have hcl : childList R p = [] := by
        have hpl := p2c_lookup R p
        rw [hc] at hpl
        by_cases hnil : childList R p = []
        · exact hnil
        · rw [if_neg hnil] at hpl
          cases hpl
      have hdesc_iff : ∀ k, Desc R p k → k = p := by
        intro k hk
        rcases Relation.ReflTransGen.cases_head hk with heq | ⟨c, hpc, _⟩
        · exact heq.symm
        · exfalso
          have hmc := (mem_childList R p c).mpr hpc
          rw [hcl] at hmc
          cases hmc
      refine ⟨(p, l) :: m, ?_, ?_, ?_⟩
      · rw [hunfold, hc]
      · intro k hk
        have hkp := hdesc_iff k hk
        subst hkp
        rw [alookup_cons, if_pos rfl]
      · intro k hk
        have hkp : ¬ (p = k) := fun h => hk (h ▸ Relation.ReflTransGen.refl)
        rw [alookup_cons, if_neg hkp]
    · have hcseq : cs = childList R p ∧ childList R p ≠ [] := by
        have hpl := p2c_lookup R p
        rw [hc] at hpl
        by_cases hnil : childList R p = []
        · rw [if_pos hnil] at hpl
          cases hpl
        · rw [if_neg hnil] at hpl
          exact ⟨Option.some.inj hpl, hnil⟩
      obtain ⟨hcs, hnnil⟩ := hcseq
      have hmem_cs : ∀ c ∈ cs, childRel R p c := by
        intro c hc'
        rw [hcs] at hc'
        exact (mem_childList R p c).mp hc'
      have hd₁ : ∀ c ∈ cs, ∀ k, Desc R c k → alookup k ((p, l) :: m) = none := by
        intro c hc' k hk
        have hpk : Desc R p k := Relation.ReflTransGen.head (hmem_cs c hc') hk
        have hkp : ¬ (p = k) := by
          intro h
          subst h
          exact not_desc_parent R dep HD (hmem_cs c hc') hk
        rw [alookup_cons, if_neg hkp]
        exact hd k hpk
      have hfm₁ : missingCount R ((p, l) :: m) < fuel := by omega
      have hcs_nodup : cs.Nodup := by
        rw [hcs]
        exact childList_nodup R HU p
      have hdesc_head : ∀ k, Desc R p k → k = p ∨ ∃ c ∈ cs, Desc R c k := by
        intro k hk
        rcases Relation.ReflTransGen.cases_head hk with heq | ⟨c, hpc, hck⟩
        · exact Or.inl heq.symm
        · refine Or.inr ⟨c, ?_, hck⟩
          rw [hcs]
          exact (mem_childList R p c).mpr hpc
      have hngoal : ∀ (mf : List (ℤ × ℤ)),
          (∀ k, (∃ c ∈ cs, Desc R c k) → alookup k mf = some l) →
          (∀ k, ¬ (∃ c ∈ cs, Desc R c k) → alookup k mf = alookup k ((p, l) :: m)) →
          (∀ k, Desc R p k → alookup k mf = some l) ∧
          (∀ k, ¬ Desc R p k → alookup k mf = alookup k m) := by
        intro mf hin hout
        constructor
        · intro k hk
          rcases hdesc_head k hk with hkp | hex
          · have hnex : ¬ (∃ c ∈ cs, Desc R c k) := by
              rintro ⟨c, hc', hck⟩
              rw [hkp] at hck
              exact not_desc_parent R dep HD (hmem_cs c hc') hck
            rw [hout k hnex, alookup_cons, if_pos hkp.symm]
          · exact hin k hex
        · intro k hk
          have hnex : ¬ (∃ c ∈ cs, Desc R c k) := by
            rintro ⟨c, hc', hck⟩
            exact hk (Relation.ReflTransGen.head (hmem_cs c hc') hck)
          have hkp : ¬ (p = k) := fun h => hk (h ▸ Relation.ReflTransGen.refl)
          rw [hout k hnex, alookup_cons, if_neg hkp]
      rcases cs with _ | ⟨c0, t0⟩
      · exact absurd hcs.symm hnnil
      rcases t0 with _ | ⟨c1, t1⟩
      · obtain ⟨m', hrun, hin, hout⟩ := ih c0 l ((p, l) :: m)
          (childRel_mem_rids R (hmem_cs c0 (List.mem_cons_self c0 [])))
          (hd₁ c0 (List.mem_cons_self c0 []) ) hfm₁
        have hpair := hngoal m'
          (by
            rintro k ⟨c, hc', hdk⟩
            rcases List.mem_cons.mp hc' with rfl | hfalse
            · exact hin k hdk
            · cases hfalse)
          (by
            intro k hnex
            have hnc0 : ¬ Desc R c0 k := fun hdk =>
              hnex ⟨c0, List.mem_cons_self c0 [], hdk⟩
            exact hout k hnc0)
        refine ⟨m', ?_, hpair.1, hpair.2⟩
        rw [hunfold, hc]
        exact hrun
      · obtain ⟨m', hrun, hin, hout⟩ := hfold (c0 :: c1 :: t1) ((p, l) :: m)
          hmem_cs hcs_nodup hd₁ hfm₁
        have hpair := hngoal m' hin hout
        refine ⟨m', ?_, hpair.1, hpair.2⟩
        rw [hunfold, hc]
        exact hrun

theorem label_sources_fold (R : List Record) (dep : ℤ → ℕ)
    (HU : (rids R).Nodup)
    (HD : ∀ r ∈ R, r.point_id ≠ r.parent_id → dep r.point_id = dep r.parent_id + 1) :
    ∀ (ss : List ℤ) (l₀ : ℤ) (m₀ : List (ℤ × ℤ)),
      (∀ s ∈ ss, isRootIn R s) →
      ss.Nodup →
      (∀ s ∈ ss, ∀ k, Desc R s k → alookup k m₀ = none) →
      ∃ m', (ss.foldlM
          (fun (st : ℤ × List (ℤ × ℤ)) s => do
            let m ← label_skeleton (build_maps R).p2c (R.length + 2) s st.1 st.2
            pure (st.1 + 1, m))
          (l₀, m₀)) = .ok (l₀ + (ss.length : ℤ), m') ∧
        (∀ s ∈ ss, ∀ k, Desc R s k →
          alookup k m' = some (l₀ + (ss.indexOf s : ℤ))) ∧
        (∀ k, (¬ ∃ s ∈ ss, Desc R s k) → alookup k m' = alookup k m₀) := by
  intro ss
  induction ss with
  | nil =>
    intro l₀ m₀ _ _ _
    refine ⟨m₀, ?_, ?_, fun k _ => rfl⟩
    · have h0 : l₀ + (([] : List ℤ).length : ℤ) = l₀ := by simp
      rw [h0]
      rfl
    · intro s hs
      cases hs
  | cons s t ih =>
    intro l₀ m₀ hroots hnd hdisj
    rw [List.nodup_cons] at hnd
    have hsmem : s ∈ rids R := isRootIn_mem_rids R (hroots s (List.mem_cons_self s t))
    have hfuel : missingCount R m₀ < R.length + 2 :=
      lt_of_le_of_lt (missingCount_le R m₀) (by omega)
    obtain ⟨m₁, hrun, hin, hout⟩ := label_skeleton_correct R dep HU HD
      (R.length + 2) s l₀ m₀ hsmem (hdisj s (List.mem_cons_self s t)) hfuel
    have hdisj₁ : ∀ s' ∈ t, ∀ k, Desc R s' k → alookup k m₁ = none := by
      intro s' hs' k hk
      have hns : ¬ Desc R s k := by
        intro hsk
        have heq := root_unique R dep HU HD (hroots s (List.mem_cons_self s t))
          (hroots s' (List.mem_cons_of_mem s hs')) hsk hk
        exact hnd.1 (heq ▸ hs')
      rw [hout k hns]
      exact hdisj s' (List.mem_cons_of_mem s hs') k hk
    obtain ⟨m', hrun', hin', hout'⟩ := ih (l₀ + 1) m₁
      (fun s' hs' => hroots s' (List.mem_cons_of_mem s hs')) hnd.2 hdisj₁
    refine ⟨m', ?_, ?_, ?_⟩
    · rw [List.foldlM_cons, hrun]
      have harith : l₀ + ((s :: t).length : ℤ) = l₀ + 1 + (t.length : ℤ) := by
        simp only [List.length_cons]
        push_cast
        ring
      rw [harith]
      exact hrun'
    · intro s' hs' k hk
      rcases List.mem_cons.mp hs' with rfl | hst
      · have hnex : ¬ ∃ s'' ∈ t, Desc R s'' k := by
          rintro ⟨s'', hs'', hk''⟩
          have heq := root_unique R dep HU HD (hroots s' (List.mem_cons_self s' t))
            (hroots s'' (List.mem_cons_of_mem s' hs'')) hk hk''
          exact hnd.1 (heq ▸ hs'')
        rw [hout' k hnex, hin k hk, List.indexOf_cons_self]
        norm_num
      · rw [hin' s' hst k hk,
          List.indexOf_cons_ne t (fun h => hnd.1 (by rw [h]; exact hst))]
        congr 1
        push_cast
        ring
    · intro k hnex
      have hnt : ¬ ∃ s'' ∈ t, Desc R s'' k := by
        rintro ⟨s'', hs'', hk''⟩
        exact hnex ⟨s'', List.mem_cons_of_mem s hs'', hk''⟩
      have hns : ¬ Desc R s k := fun hk => hnex ⟨s, List.mem_cons_self s t, hk⟩
      rw [hout' k hnt, hout k hns]

theorem label_map_correct (R : List Record) (dep : ℤ → ℕ)
    (HU : (rids R).Nodup)
    (HD : ∀ r ∈ R, r.point_id ≠ r.parent_id → dep r.point_id = dep r.parent_id + 1) :
    ∃ M, label_map R = .ok M ∧
      (∀ ρ ∈ rootList R, ∀ k, Desc R ρ k →
        alookup k M = some (((rootList R).indexOf ρ : ℤ) + 1)) ∧
      (∀ k, (¬ ∃ ρ ∈ rootList R, Desc R ρ k) → alookup k M = none) := by
  obtain ⟨M, hrun, hin, hout⟩ := label_sources_fold R dep HU HD (rootList R) 1 []
    (fun s hs => (mem_rootList R s).mp hs)
    (rootList_nodup R HU)
    (fun s _ k _ => rfl)
  refine ⟨M, ?_, ?_, fun k h => hout k h⟩
  · rw [label_map]
    rw [build_maps_sources, hrun]
    rfl
  · intro ρ hρ k hk
    rw [hin ρ hρ k hk]
    congr 1
    ring

theorem mapM_ok {α β : Type} (f : α → Except SwcErr β) (l : List α)
    (h : ∀ a ∈ l, ∃ b, f a = .ok b) : ∃ out, l.mapM f = .ok out := by
  induction l with
  | nil => exact ⟨[], rfl⟩
  | cons a t ih =>
    obtain ⟨b, hb⟩ := h a (List.mem_cons_self a t)
    obtain ⟨out, hout⟩ := ih (fun x hx => h x (List.mem_cons_of_mem a hx))
    refine ⟨b :: out, ?_⟩
    rw [List.mapM_cons, hb, hout]
    rfl

/-- C3: for every valid record set — unique point ids, existing parents,
and forest-shaped (witnessed by a depth ranking `dep` that increases by
one along every parent→child edge) — the labeling pass succeeds; every
point id receives exactly one label, two points receive the same label
iff they are weakly connected through parent/child edges, the labels used
are exactly the dense integers `1 .. #roots`, the number of roots is the
number of records with `point_id == parent_id`, and each point's label is
`1 +` the index of its root in table (root-discovery) order. -/
theorem C3_labeling (R : List Record) (dep : ℤ → ℕ)
    (HU : (rids R).Nodup)
    (HP : ∀ r ∈ R, r.point_id ≠ r.parent_id → r.parent_id ∈ rids R)
    (HD : ∀ r ∈ R, r.point_id ≠ r.parent_id → dep r.point_id = dep r.parent_id + 1) :
    ∃ M, label_map R = .ok M ∧
      (∀ i ∈ rids R, ∃ l : ℤ, alookup i M = some l) ∧
      (∀ i ∈ rids R, ∀ j ∈ rids R, (alookup i M = alookup j M ↔ Connected R i j)) ∧
      (∀ l : ℤ, (∃ i ∈ rids R, alookup i M = some l) ↔
        1 ≤ l ∧ l ≤ ((rootList R).length : ℤ)) ∧
      ((rootList R).length = (R.filter (fun r => r.point_id == r.parent_id)).length) ∧
      (∀ i ∈ rids R, ∀ ρ, isRootIn R ρ → Desc R ρ i →
        alookup i M = some (((rootList R).indexOf ρ : ℤ) + 1)) ∧
      (∃ out, label_skeletons R = .ok out) := by
  obtain ⟨M, hrun, hin, hout⟩ := label_map_correct R dep HU HD
  have hasroot : ∀ i ∈ rids R, ∃ ρ, isRootIn R ρ ∧ Desc R ρ i :=
    fun i hi => exists_root R dep HU HP HD (dep i) i rfl hi
  have hlabel : ∀ i ∈ rids R, ∀ ρ, isRootIn R ρ → Desc R ρ i →
      alookup i M = some (((rootList R).indexOf ρ : ℤ) + 1) := by
    intro i _ ρ hρ hd
    exact hin ρ ((mem_rootList R ρ).mpr hρ) i hd
  refine ⟨M, hrun, ?_, ?_, ?_, ?_, hlabel, ?_⟩
  · intro i hi
    obtain ⟨ρ, hρ, hd⟩ := hasroot i hi
    exact ⟨_, hlabel i hi ρ hρ hd⟩
  · intro i hi j hj
    obtain ⟨ρi, hρi, hdi⟩ := hasroot i hi
    obtain ⟨ρj, hρj, hdj⟩ := hasroot j hj
    rw [hlabel i hi ρi hρi hdi, hlabel j hj ρj hρj hdj,
      connected_iff_root R dep HU HP HD hi]
    constructor
    · intro heq
      have hinj := Option.some.inj heq
      have hidx : (rootList R).indexOf ρi = (rootList R).indexOf ρj := by omega
      have h1 : (rootList R).indexOf ρi < (rootList R).length :=
        List.indexOf_lt_length.mpr ((mem_rootList R ρi).mpr hρi)
      have h2 : (rootList R).indexOf ρj < (rootList R).length :=
        List.indexOf_lt_length.mpr ((mem_rootList R ρj).mpr hρj)
      have hρeq : ρi = ρj := by
        rw [← List.getElem_indexOf h1, ← List.getElem_indexOf h2]
        simp only [hidx]
      exact ⟨ρi, hρi, hdi, hρeq ▸ hdj⟩
    · rintro ⟨ρ, hρ, hdi', hdj'⟩
      have e1 : ρi = ρ := root_unique R dep HU HD hρi hρ hdi hdi'
      have e2 : ρj = ρ := root_unique R dep HU HD hρj hρ hdj hdj'
      rw [e1, e2]
  · intro l
    constructor
    · rintro ⟨i, hi, hl⟩
      obtain ⟨ρ, hρ, hd⟩ := hasroot i hi
      rw [hlabel i hi ρ hρ hd] at hl
      have hidx : (rootList R).indexOf ρ < (rootList R).length :=
        List.indexOf_lt_length.mpr ((mem_rootList R ρ).mpr hρ)
      have hinj := Option.some.inj hl
      omega
    · rintro ⟨hl1, hl2⟩
      have hidx : (l - 1).toNat < (rootList R).length := by omega
      have hρmem : (rootList R)[(l - 1).toNat] ∈ rootList R := List.getElem_mem _
      have hρroot : isRootIn R ((rootList R)[(l - 1).toNat]) :=
        (mem_rootList R _).mp hρmem
      have hρrids : (rootList R)[(l - 1).toNat] ∈ rids R :=
        isRootIn_mem_rids R hρroot
      have hidxeq : (rootList R).indexOf ((rootList R)[(l - 1).toNat]) = (l - 1).toNat :=
        List.indexOf_getElem (rootList_nodup R HU) (l - 1).toNat hidx
      refine ⟨(rootList R)[(l - 1).toNat], hρrids, ?_⟩
      rw [hlabel _ hρrids _ hρroot Relation.ReflTransGen.refl, hidxeq]
      congr 1
      omega
  · rw [rootList, List.length_map]
  · have hall : ∀ r ∈ R, ∃ b, (match alookup r.point_id M with
        | some l => (Except.ok { r with label_id := l } : Except SwcErr Record)
        | none => Except.error SwcErr.keyError) = .ok b := by
      intro r hr
      have hmem : r.point_id ∈ rids R := List.mem_map.mpr ⟨r, hr, rfl⟩
      obtain ⟨ρ, hρ, hd⟩ := hasroot _ hmem
      have hv := hlabel _ hmem ρ hρ hd
      rw [hv]
      exact ⟨_, rfl⟩
    obtain ⟨out, hmapm⟩ := mapM_ok _ R hall
    refine ⟨out, ?_⟩
    rw [label_skeletons, hrun]
    exact hmapm

/-- Witness for `C3_labeling`: a concrete table with two trees (root 1
with chain 2 branching into 3 and 4; root 5 with child 6), ranked by an
explicit depth function. -/
theorem C3_witness :
    ∃ M, label_map [⟨0, 0, 0, 1, 1, 0⟩, ⟨1, 0, 0, 2, 1, 0⟩, ⟨2, 0, 0, 3, 2, 0⟩,
        ⟨3, 0, 0, 4, 2, 0⟩, ⟨4, 0, 0, 5, 5, 0⟩, ⟨5, 0, 0, 6, 5, 0⟩] = .ok M ∧
      (∀ i ∈ rids [⟨0, 0, 0, 1, 1, 0⟩, ⟨1, 0, 0, 2, 1, 0⟩, ⟨2, 0, 0, 3, 2, 0⟩,
        ⟨3, 0, 0, 4, 2, 0⟩, ⟨4, 0, 0, 5, 5, 0⟩, ⟨5, 0, 0, 6, 5, 0⟩],
        ∃ l : ℤ, alookup i M = some l) ∧
      (∀ i ∈ rids [⟨0, 0, 0, 1, 1, 0⟩, ⟨1, 0, 0, 2, 1, 0⟩, ⟨2, 0, 0, 3, 2, 0⟩,
        ⟨3, 0, 0, 4, 2, 0⟩, ⟨4, 0, 0, 5, 5, 0⟩, ⟨5, 0, 0, 6, 5, 0⟩],
        ∀ j ∈ rids [⟨0, 0, 0, 1, 1, 0⟩, ⟨1, 0, 0, 2, 1, 0⟩, ⟨2, 0, 0, 3, 2, 0⟩,
          ⟨3, 0, 0, 4, 2, 0⟩, ⟨4, 0, 0, 5, 5, 0⟩, ⟨5, 0, 0, 6, 5, 0⟩],
        (alookup i M = alookup j M ↔
          Connected [⟨0, 0, 0, 1, 1, 0⟩, ⟨1, 0, 0, 2, 1, 0⟩, ⟨2, 0, 0, 3, 2, 0⟩,
            ⟨3, 0, 0, 4, 2, 0⟩, ⟨4, 0, 0, 5, 5, 0⟩, ⟨5, 0, 0, 6, 5, 0⟩] i j)) ∧
      (∀ l : ℤ, (∃ i ∈ rids [⟨0, 0, 0, 1, 1, 0⟩, ⟨1, 0, 0, 2, 1, 0⟩, ⟨2, 0, 0, 3, 2, 0⟩,
          ⟨3, 0, 0, 4, 2, 0⟩, ⟨4, 0, 0, 5, 5, 0⟩, ⟨5, 0, 0, 6, 5, 0⟩],
          alookup i M = some l) ↔
        1 ≤ l ∧ l ≤ ((rootList [⟨0, 0, 0, 1, 1, 0⟩, ⟨1, 0, 0, 2, 1, 0⟩, ⟨2, 0, 0, 3, 2, 0⟩,
          ⟨3, 0, 0, 4, 2, 0⟩, ⟨4, 0, 0, 5, 5, 0⟩, ⟨5, 0, 0, 6, 5, 0⟩]).length : ℤ)) ∧
      ((rootList [⟨0, 0, 0, 1, 1, 0⟩, ⟨1, 0, 0, 2, 1, 0⟩, ⟨2, 0, 0, 3, 2, 0⟩,
          ⟨3, 0, 0, 4, 2, 0⟩, ⟨4, 0, 0, 5, 5, 0⟩, ⟨5, 0, 0, 6, 5, 0⟩]).length =
        (([⟨0, 0, 0, 1, 1, 0⟩, ⟨1, 0, 0, 2, 1, 0⟩, ⟨2, 0, 0, 3, 2, 0⟩, ⟨3, 0, 0, 4, 2, 0⟩,
          ⟨4, 0, 0, 5, 5, 0⟩, ⟨5, 0, 0, 6, 5, 0⟩] : List Record).filter
            (fun r => r.point_id == r.parent_id)).length) ∧
      (∀ i ∈ rids [⟨0, 0, 0, 1, 1, 0⟩, ⟨1, 0, 0, 2, 1, 0⟩, ⟨2, 0, 0, 3, 2, 0⟩,
          ⟨3, 0, 0, 4, 2, 0⟩, ⟨4, 0, 0, 5, 5, 0⟩, ⟨5, 0, 0, 6, 5, 0⟩],
        ∀ ρ, isRootIn [⟨0, 0, 0, 1, 1, 0⟩, ⟨1, 0, 0, 2, 1, 0⟩, ⟨2, 0, 0, 3, 2, 0⟩,
            ⟨3, 0, 0, 4, 2, 0⟩, ⟨4, 0, 0, 5, 5, 0⟩, ⟨5, 0, 0, 6, 5, 0⟩] ρ →
          Desc [⟨0, 0, 0, 1, 1, 0⟩, ⟨1, 0, 0, 2, 1, 0⟩, ⟨2, 0, 0, 3, 2, 0⟩,
            ⟨3, 0, 0, 4, 2, 0⟩, ⟨4, 0, 0, 5, 5, 0⟩, ⟨5, 0, 0, 6, 5, 0⟩] ρ i →
          alookup i M = some
            (((rootList [⟨0, 0, 0, 1, 1, 0⟩, ⟨1, 0, 0, 2, 1, 0⟩, ⟨2, 0, 0, 3, 2, 0⟩,
              ⟨3, 0, 0, 4, 2, 0⟩, ⟨4, 0, 0, 5, 5, 0⟩, ⟨5, 0, 0, 6, 5, 0⟩]).indexOf ρ : ℤ)
              + 1)) ∧
      (∃ out, label_skeletons [⟨0, 0, 0, 1, 1, 0⟩, ⟨1, 0, 0, 2, 1, 0⟩, ⟨2, 0, 0, 3, 2, 0⟩,
        ⟨3, 0, 0, 4, 2, 0⟩, ⟨4, 0, 0, 5, 5, 0⟩, ⟨5, 0, 0, 6, 5, 0⟩] = .ok out) :=
  C3_labeling
    [⟨0, 0, 0, 1, 1, 0⟩, ⟨1, 0, 0, 2, 1, 0⟩, ⟨2, 0, 0, 3, 2, 0⟩, ⟨3, 0, 0, 4, 2, 0⟩,
      ⟨4, 0, 0, 5, 5, 0⟩, ⟨5, 0, 0, 6, 5, 0⟩]
    (fun i => if i = 2 then 1 else if i = 3 then 2 else if i = 4 then 2
      else if i = 6 then 1 else 0)
    (by decide) (by decide) (by decide)

/-- Witness for `C6_digital_line` on the segment `(0,0,0) → (5,2,0)`. -/
theorem C6_witness :
    (bresenhamline ⟨0, 0, 0⟩ ⟨5, 2, 0⟩ (-1)).length =
        maxAbs (vsub ⟨5, 2, 0⟩ ⟨0, 0, 0⟩) ∧
      (⟨0, 0, 0⟩ : V3 ℤ) ∈ rasterize_line_segment ⟨0, 0, 0⟩ ⟨5, 2, 0⟩ [] ∧
      (⟨5, 2, 0⟩ : V3 ℤ) ∈ rasterize_line_segment ⟨0, 0, 0⟩ ⟨5, 2, 0⟩ [] ∧
      List.Chain adj8 ⟨0, 0, 0⟩ (bresenhamline ⟨0, 0, 0⟩ ⟨5, 2, 0⟩ (-1)) ∧
      (bresenhamline ⟨0, 0, 0⟩ ⟨5, 2, 0⟩ (-1)).getLast? = some ⟨5, 2, 0⟩ :=
  C6_digital_line ⟨0, 0, 0⟩ ⟨5, 2, 0⟩ (by decide)
